import Mathlib

/-!
Packet filter hook registry and dispatch (sys/net/pfil.c)

A shallow embedding of `pfil.c`.  Pointers are natural numbers with `0` for
`NULL`; a tail queue is a `List` read from head to tail; the effect of calling
through a function pointer is given by a table `code` from function pointers to
state transformers over an arbitrary world state.  Locks are not modelled: every
operation below is the body that runs with the lock held.
-/

namespace Pfil

/-! ## Constants of headers outside the source tree -/

/-- Modelled from the spec: `sys/errno.h` is not among the sources; `NotPresent` is
the usual errno value of `ENOENT`. -/
def ENOENT : Int := 2

/-- Modelled from the spec: `sys/errno.h` is not among the sources; `OutOfMemory` is
the usual errno value of `ENOMEM`. -/
def ENOMEM : Int := 12

/-- Modelled from the spec: `sys/errno.h` is not among the sources; `AlreadyPresent`
and `AlreadyExists` are the usual errno value of `EEXIST`. -/
def EEXIST : Int := 17

/-- Modelled from the spec: `net/pfil.h` is not among the sources; the flag INPUT. -/
def PFIL_IN : Nat := 1

/-- Modelled from the spec: `net/pfil.h` is not among the sources; the flag OUTPUT. -/
def PFIL_OUT : Nat := 2

/-- Modelled from the spec: `net/pfil.h` is not among the sources; the flag WAIT_OK. -/
def PFIL_WAITOK : Nat := 4

/-- Modelled from the spec: `net/pfil.h` is not among the sources; ALL is the
shorthand for INPUT | OUTPUT. -/
def PFIL_ALL : Nat := PFIL_IN ||| PFIL_OUT

/-- Modelled from the spec: `net/pfil.h` is not among the sources; the default
ordinal is mid-range, 128. -/
def PFIL_ORDER_DEFAULT : Nat := 128

/-! ## Data model -/

/-- The record `struct packet_filter_hook`: `pfil_func` is the function pointer
(`0` is `NULL`), `pfil_arg` the opaque argument pointer, `pfil_cookie` an `int`,
`pfil_order` a `uint8_t`. -/
structure packet_filter_hook where
  pfil_func : Nat
  pfil_arg : Nat
  pfil_cookie : Int
  pfil_order : Nat
  pfil_name : String
deriving DecidableEq, Repr

/-- The tail queue `pfil_list_t`, head first. -/
abbrev pfil_list_t := List packet_filter_hook

/-- The record `struct pfil_head`; `ph_val` is `ph_un.phu_val`. -/
structure pfil_head where
  ph_type : Int
  ph_val : Nat
  ph_nhooks : Int
  ph_in : pfil_list_t
  ph_out : pfil_list_t
deriving DecidableEq, Repr

/-- What a filter function does when called as
`(*func)(arg, &m, ifp, dir, inp)` in a world `w`: the value it returns, the packet
it leaves in `m`, and the world afterwards. -/
abbrev pfil_func_t (σ : Type) := Nat → Nat → Nat → Int → Nat → σ → Int × Nat × σ

/-- One invocation of a hook, as observed at the call site of `pfil_run_inject`. -/
structure pfil_call where
  hook : packet_filter_hook
  m_in : Nat
  rv : Int
  m_out : Nat
deriving DecidableEq, Repr

/-- Outcome of a dispatch: the returned value, the packet stored into `*mp`, the
world afterwards and the invocations made, first call first. -/
structure pfil_result (σ : Type) where
  rv : Int
  m : Nat
  world : σ
  calls : List pfil_call

/-! ## Dispatch -/

/-- Modelled from the spec: the inline helper `pfil_hook_get` lives in `net/pfil.h`,
which is not among the sources; it chooses the list by direction (the input list
for INPUT, the output list for OUTPUT, no hook otherwise). -/
def pfil_hook_get (dir : Int) (ph : pfil_head) : pfil_list_t :=
  if dir = (PFIL_IN : Int) then ph.ph_in
  else if dir = (PFIL_OUT : Int) then ph.ph_out
  else []

/-- The `for` loop of `pfil_run_inject` over the remaining hooks, with the current
values of the locals `cookie`, `m` and `rv`. -/
def pfil_walk {σ : Type} (code : Nat → pfil_func_t σ) (ifp : Nat) (dir : Int) (inp : Nat) :
    pfil_list_t → Int → Nat → Int → σ → pfil_result σ
  | [], _, m, rv, w => ⟨rv, m, w, []⟩
  | pfh :: rest, cookie, m, rv, w =>
    if cookie ≠ 0 then
      pfil_walk code ifp dir inp rest (if pfh.pfil_cookie = cookie then 0 else cookie) m rv w
    else if pfh.pfil_func ≠ 0 then
      let r := code pfh.pfil_func pfh.pfil_arg m ifp dir inp w
      let c : pfil_call := ⟨pfh, m, r.1, r.2.1⟩
      if r.1 ≠ 0 ∨ r.2.1 = 0 then ⟨r.1, r.2.1, r.2.2, [c]⟩
      else
        let out := pfil_walk code ifp dir inp rest cookie r.2.1 r.1 r.2.2
        ⟨out.rv, out.m, out.world, c :: out.calls⟩
    else pfil_walk code ifp dir inp rest cookie m rv w

/-- The function `pfil_run_inject`: `m` is the value of `*mp` on entry. -/
def pfil_run_inject {σ : Type} (code : Nat → pfil_func_t σ) (ph : pfil_head) (m : Nat)
    (ifp : Nat) (dir : Int) (inp : Nat) (cookie : Int) (w : σ) : pfil_result σ :=
  pfil_walk code ifp dir inp (pfil_hook_get dir ph) cookie m 0 w

/-- The function `pfil_run_hooks`. -/
def pfil_run_hooks {σ : Type} (code : Nat → pfil_func_t σ) (ph : pfil_head) (m : Nat)
    (ifp : Nat) (dir : Int) (inp : Nat) (w : σ) : pfil_result σ :=
  pfil_run_inject code ph m ifp dir inp 0 w

/-! ## Vocabulary for statements about dispatch -/

/-- The packet and world reached by calling every hook of the list in turn,
each on what the previous one left. -/
def pfil_chain {σ : Type} (code : Nat → pfil_func_t σ) (ifp : Nat) (dir : Int) (inp : Nat) :
    pfil_list_t → Nat → σ → Nat × σ
  | [], m, w => (m, w)
  | h :: t, m, w =>
    pfil_chain code ifp dir inp t (code h.pfil_func h.pfil_arg m ifp dir inp w).2.1
      (code h.pfil_func h.pfil_arg m ifp dir inp w).2.2

/-- Every hook of the list has a function and, called in turn on what the
previous one left, returns 0 and leaves a non-null packet. -/
def all_pass {σ : Type} (code : Nat → pfil_func_t σ) (ifp : Nat) (dir : Int) (inp : Nat) :
    pfil_list_t → Nat → σ → Prop
  | [], _, _ => True
  | h :: t, m, w =>
    h.pfil_func ≠ 0 ∧
    (code h.pfil_func h.pfil_arg m ifp dir inp w).1 = 0 ∧
    (code h.pfil_func h.pfil_arg m ifp dir inp w).2.1 ≠ 0 ∧
    all_pass code ifp dir inp t (code h.pfil_func h.pfil_arg m ifp dir inp w).2.1
      (code h.pfil_func h.pfil_arg m ifp dir inp w).2.2

/-- The calls form a chain: the first receives `m`, each later one receives the
packet the call before it left. -/
def calls_chained : Nat → List pfil_call → Prop
  | _, [] => True
  | m, c :: t => c.m_in = m ∧ calls_chained c.m_out t

/-- The packet left by the last call, or `m` when no call was made. -/
def calls_last : Nat → List pfil_call → Nat
  | m, [] => m
  | _, c :: t => calls_last c.m_out t

/-- The hooks strictly after the first hook whose cookie equals `c`; none when
no hook has that cookie. -/
def hooks_after (c : Int) : pfil_list_t → pfil_list_t
  | [] => []
  | h :: t => if h.pfil_cookie = c then t else hooks_after c t

/-! ## Hook-list store -/

/-- The C expression `a & ~b` on 32-bit flag words. -/
def flags_clear (a b : Nat) : Nat := a &&& (4294967295 ^^^ b)

/-- The conversion `(int)` of a value returned by `random()`. -/
def to_int32 (n : Nat) : Int :=
  if n % 4294967296 < 2147483648 then (n % 4294967296 : Nat) else (n % 4294967296 : Nat) - 4294967296

/-- Walk from the head (`TAILQ_FOREACH`) to the first hook satisfying `p` and place
`x` before it (`TAILQ_INSERT_BEFORE`); `none` when the walk ends with `pfh == NULL`. -/
def tailq_insert_before (p : packet_filter_hook → Bool) (x : packet_filter_hook) :
    pfil_list_t → Option pfil_list_t
  | [] => none
  | h :: t =>
    if p h then some (x :: h :: t)
    else match tailq_insert_before p x t with
      | some t2 => some (h :: t2)
      | none => none

/-- Walk from the tail (`TAILQ_FOREACH_REVERSE`) to the first hook met that
satisfies `p`, which is the last such hook of the list, and place `x` after it
(`TAILQ_INSERT_AFTER`); `none` when the walk ends with `pfh == NULL`. -/
def tailq_insert_after_last (p : packet_filter_hook → Bool) (x : packet_filter_hook) :
    pfil_list_t → Option pfil_list_t
  | [] => none
  | h :: t =>
    match tailq_insert_after_last p x t with
    | some t2 => some (h :: t2)
    | none => if p h then some (h :: x :: t) else none

/-- The test `pfh->pfil_func == func && pfh->pfil_arg == arg`. -/
def same_ident (func arg : Nat) (pfh : packet_filter_hook) : Bool :=
  pfh.pfil_func = func && pfh.pfil_arg = arg

/-- The function `pfil_list_add`: the error code and the list afterwards. -/
def pfil_list_add (list : pfil_list_t) (pfh1 : packet_filter_hook) (flags : Nat)
    (order : Nat) : Int × pfil_list_t :=
  if list.any (same_ident pfh1.pfil_func pfh1.pfil_arg) then (EEXIST, list)
  else if flags &&& PFIL_IN ≠ 0 then
    match tailq_insert_before (fun pfh => pfh.pfil_order ≤ order) pfh1 list with
    | none => (0, pfh1 :: list)
    | some l => (0, l)
  else
    match tailq_insert_after_last (fun pfh => order ≤ pfh.pfil_order) pfh1 list with
    | none => (0, list ++ [pfh1])
    | some l => (0, l)

/-- The function `pfil_list_remove`: the error code and the list afterwards. -/
def pfil_list_remove : pfil_list_t → Nat → Nat → Int × pfil_list_t
  | [], _, _ => (ENOENT, [])
  | pfh :: t, func, arg =>
    if pfh.pfil_func = func ∧ pfh.pfil_arg = arg then (0, t)
    else ((pfil_list_remove t func arg).1, pfh :: (pfil_list_remove t func arg).2)

/-- What the surroundings supply to one call of `pfil_add_hook_order`: whether the
first and the second `malloc` would succeed without waiting, and the values
returned by the first and the second call of `random()` in program text. -/
structure pfil_env where
  nowait1 : Bool
  nowait2 : Bool
  random1 : Nat
  random2 : Nat
deriving DecidableEq, Repr

/-- The function `pfil_add_hook_order`: the error code and the head afterwards.
The parameter `order` is converted to `uint8_t` on entry; a `malloc` with
`M_WAITOK` does not fail. -/
def pfil_add_hook_order (func arg : Nat) (name : String) (flags : Nat) (order : Nat)
    (ph : pfil_head) (env : pfil_env) : Int × pfil_head :=
  let order := order % 256
  if flags &&& PFIL_IN ≠ 0 ∧ flags &&& PFIL_WAITOK = 0 ∧ env.nowait1 = false then (ENOMEM, ph)
  else if flags &&& PFIL_OUT ≠ 0 ∧ flags &&& PFIL_WAITOK = 0 ∧ env.nowait2 = false then
    (ENOMEM, ph)
  else
    let pfh1 : packet_filter_hook := ⟨func, arg, to_int32 env.random1, order, name⟩
    let pfh2 : packet_filter_hook := ⟨func, arg, to_int32 env.random2, order, name⟩
    let r1 :=
      if flags &&& PFIL_IN ≠ 0 then pfil_list_add ph.ph_in pfh1 (flags_clear flags PFIL_OUT) order
      else (0, ph.ph_in)
    if r1.1 ≠ 0 then (r1.1, ph)
    else
      let ph1 : pfil_head :=
        if flags &&& PFIL_IN ≠ 0 then
          { ph with ph_in := r1.2, ph_nhooks := ph.ph_nhooks + 1 }
        else ph
      if flags &&& PFIL_OUT ≠ 0 then
        let r2 := pfil_list_add ph1.ph_out pfh2 (flags_clear flags PFIL_IN) order
        if r2.1 ≠ 0 then
          if flags &&& PFIL_IN ≠ 0 then
            (r2.1, { ph1 with ph_in := (pfil_list_remove ph1.ph_in func arg).2 })
          else (r2.1, ph1)
        else (0, { ph1 with ph_out := r2.2, ph_nhooks := ph1.ph_nhooks + 1 })
      else (0, ph1)

/-- The function `pfil_add_hook`. -/
def pfil_add_hook (func arg : Nat) (flags : Nat) (ph : pfil_head) (env : pfil_env) :
    Int × pfil_head :=
  pfil_add_hook_order func arg "unknown" flags PFIL_ORDER_DEFAULT ph env

/-- The function `pfil_remove_hook`: the error code and the head afterwards. -/
def pfil_remove_hook (func arg : Nat) (flags : Nat) (ph : pfil_head) : Int × pfil_head :=
  let r1 :=
    if flags &&& PFIL_IN ≠ 0 then pfil_list_remove ph.ph_in func arg else (0, ph.ph_in)
  let ph1 : pfil_head :=
    if flags &&& PFIL_IN ≠ 0 ∧ r1.1 = 0 then
      { ph with ph_in := r1.2, ph_nhooks := ph.ph_nhooks - 1 }
    else ph
  if r1.1 = 0 ∧ flags &&& PFIL_OUT ≠ 0 then
    let r2 := pfil_list_remove ph1.ph_out func arg
    if r2.1 = 0 then (0, { ph1 with ph_out := r2.2, ph_nhooks := ph1.ph_nhooks - 1 })
    else (r2.1, ph1)
  else (r1.1, ph1)

/-- The state `pfil_head_register` gives a head before linking it into the
registry: `ph_nhooks = 0` and both tail queues initialised empty. -/
def pfil_head_fresh (ph : pfil_head) : pfil_head :=
  { ph with ph_nhooks := 0, ph_in := [], ph_out := [] }

/-- The function `pfil_head_register` over the registry `V_pfil_head_list`, most
recently inserted head first: the error code and the registry afterwards. -/
def pfil_head_register (reg : List pfil_head) (ph : pfil_head) : Int × List pfil_head :=
  if reg.any (fun lph => ph.ph_type = lph.ph_type && ph.ph_val = lph.ph_val) then (EEXIST, reg)
  else (0, pfil_head_fresh ph :: reg)

/-! ## Sequences of administrative calls -/

/-- One administrative call on a head. -/
inductive pfil_op where
  | add_order (func arg : Nat) (name : String) (flags order : Nat) (env : pfil_env)
  | add (func arg : Nat) (flags : Nat) (env : pfil_env)
  | remove (func arg : Nat) (flags : Nat)
deriving DecidableEq, Repr

/-- Perform one administrative call: the error code and the head afterwards. -/
def pfil_apply (ph : pfil_head) : pfil_op → Int × pfil_head
  | .add_order func arg name flags order env => pfil_add_hook_order func arg name flags order ph env
  | .add func arg flags env => pfil_add_hook func arg flags ph env
  | .remove func arg flags => pfil_remove_hook func arg flags ph

/-- Perform a sequence of administrative calls in order, whatever each returns. -/
def pfil_run_ops : List pfil_op → pfil_head → pfil_head
  | [], ph => ph
  | op :: rest, ph => pfil_run_ops rest (pfil_apply ph op).2

/-- Every call of the sequence, performed in order, returns 0. -/
def pfil_all_ok : List pfil_op → pfil_head → Prop
  | [], _ => True
  | op :: rest, ph => (pfil_apply ph op).1 = 0 ∧ pfil_all_ok rest (pfil_apply ph op).2

end Pfil

namespace Pfil

/-! ## Vocabulary for statements about the lists -/

/-- No two hooks of the list have the same `(pfil_func, pfil_arg)` pair. -/
def ident_unique (l : pfil_list_t) : Prop :=
  l.Pairwise (fun x y => ¬ (x.pfil_func = y.pfil_func ∧ x.pfil_arg = y.pfil_arg))

/-- The orders never grow from head to tail. -/
def sorted_nonincreasing (l : pfil_list_t) : Prop :=
  l.Pairwise (fun x y => y.pfil_order ≤ x.pfil_order)

/-- The orders never shrink from head to tail. -/
def sorted_nondecreasing (l : pfil_list_t) : Prop :=
  l.Pairwise (fun x y => x.pfil_order ≤ y.pfil_order)

/-- The hook count of the head equals the number of hooks on its two lists. -/
def nhooks_ok (ph : pfil_head) : Prop :=
  ph.ph_nhooks = (ph.ph_in.length : Int) + (ph.ph_out.length : Int)

/-- The identities `(pfil_func, pfil_arg)` of the hooks of a list, head first. -/
def idents (l : pfil_list_t) : List (Nat × Nat) :=
  l.map (fun x => (x.pfil_func, x.pfil_arg))

/-- The list holds a hook with identity `(func, arg)` whose order is `order`. -/
def has_hook (func arg order : Nat) (l : pfil_list_t) : Prop :=
  ∃ x ∈ l, x.pfil_func = func ∧ x.pfil_arg = arg ∧ x.pfil_order = order

/-- Some hook with identity `(f1, a1)` stands before some hook with identity
`(f2, a2)` on the list. -/
def ident_precedes (f1 a1 f2 a2 : Nat) (l : pfil_list_t) : Prop :=
  ∃ x y, [x, y].Sublist l ∧ (x.pfil_func = f1 ∧ x.pfil_arg = a1) ∧
    (y.pfil_func = f2 ∧ y.pfil_arg = a2)

/-- The flag of a side: `PFIL_IN` for the input side, `PFIL_OUT` for the output side. -/
def side_flag (input : Bool) : Nat := if input then PFIL_IN else PFIL_OUT

/-- The list of a side of a head. -/
def ph_side (input : Bool) (ph : pfil_head) : pfil_list_t :=
  if input then ph.ph_in else ph.ph_out

/-- The call is a `pfil_remove_hook` for the identity `(func, arg)` whose flags
name the given side. -/
def op_removes (input : Bool) (func arg : Nat) : pfil_op → Prop
  | .remove f a fl => f = func ∧ a = arg ∧ fl &&& side_flag input ≠ 0
  | _ => False

/-- The call is a `pfil_add_hook` whose flags name the given side. -/
def op_adds_default (input : Bool) : pfil_op → Bool
  | .add _ _ fl _ => fl &&& side_flag input ≠ 0
  | _ => false

/-- The identity a call names. -/
def op_ident : pfil_op → Nat × Nat
  | .add_order f a _ _ _ _ => (f, a)
  | .add f a _ _ => (f, a)
  | .remove f a _ => (f, a)

end Pfil

namespace Pfil

/-! ## Cookie query and registry -/

/-- The `TAILQ_FOREACH` of `pfil_get_cookie` over the remaining hooks, with the
current value of the local `cookie`: every matching hook overwrites it. -/
def pfil_cookie_walk : pfil_list_t → Nat → Nat → Int → Int
  | [], _, _, cookie => cookie
  | pfh :: t, func, arg, cookie =>
    pfil_cookie_walk t func arg
      (if pfh.pfil_func = func ∧ pfh.pfil_arg = arg then pfh.pfil_cookie else cookie)

/-- The function `pfil_get_cookie`: the value returned and the head afterwards
(the function writes nothing to the head). -/
def pfil_get_cookie (func arg : Nat) (flags : Nat) (ph : pfil_head) : Int × pfil_head :=
  if flags &&& PFIL_IN ≠ 0 then (pfil_cookie_walk ph.ph_in func arg 0, ph)
  else if flags &&& PFIL_OUT ≠ 0 then (pfil_cookie_walk ph.ph_out func arg 0, ph)
  else (0, ph)

/-- The test `ph->ph_type == type && ph->ph_un.phu_val == val` of the registry walks. -/
def same_key (type : Int) (val : Nat) (ph : pfil_head) : Bool :=
  ph.ph_type = type && ph.ph_val = val

/-- `LIST_REMOVE` of the head record named by `(type, val)`: the first record of
the registry with that key is unlinked. -/
def registry_unlink (type : Int) (val : Nat) : List pfil_head → List pfil_head
  | [] => []
  | lph :: t => if same_key type val lph then t else lph :: registry_unlink type val t

/-- The function `pfil_head_unregister` over the registry: the value returned and
the registry afterwards. The registry holds the head records themselves, a record
being named by its `(ph_type, ph_val)` pair; `LIST_REMOVE` of a head that is not
linked is undefined in C and is `none` here. Freeing the hooks and destroying the
lock leave the registry as it is. -/
def pfil_head_unregister (reg : List pfil_head) (ph : pfil_head) :
    Option (Int × List pfil_head) :=
  if reg.any (same_key ph.ph_type ph.ph_val) then
    some (0, registry_unlink ph.ph_type ph.ph_val reg)
  else none

/-- The function `pfil_head_get`: the head found (`none` for `NULL`) and the
registry afterwards (the function writes nothing to it). -/
def pfil_head_get (reg : List pfil_head) (type : Int) (val : Nat) :
    Option pfil_head × List pfil_head :=
  (reg.find? (same_key type val), reg)

/-- One call on the registry. -/
inductive registry_op where
  | register (ph : pfil_head)
  | unregister (ph : pfil_head)
deriving DecidableEq, Repr

/-- Perform a sequence of registry calls in order, whatever `pfil_head_register`
returns; `none` as soon as a head that is not linked is unregistered. -/
def registry_run : List registry_op → List pfil_head → Option (List pfil_head)
  | [], reg => some reg
  | .register ph :: rest, reg => registry_run rest (pfil_head_register reg ph).2
  | .unregister ph :: rest, reg =>
    match pfil_head_unregister reg ph with
    | some r => registry_run rest r.2
    | none => none

/-- No two heads of the registry have the same `(ph_type, ph_val)` pair. -/
def registry_unique (reg : List pfil_head) : Prop :=
  reg.Pairwise (fun x y => ¬ (x.ph_type = y.ph_type ∧ x.ph_val = y.ph_val))

end Pfil

namespace Pfil

/-! ## Concrete filters and heads used to instantiate the statements -/

/-- A table of three filters over a world that counts calls: function 1 passes
the packet through, function 2 consumes it (null packet, returns 0), function 3
aborts with 42 and leaves the packet; any other pointer passes through as well. -/
def demo_code : Nat → pfil_func_t Nat
  | 2 => fun _ _ _ _ _ w => (0, 0, w + 1)
  | 3 => fun _ m _ _ _ w => (42, m, w + 1)
  | _ => fun _ m _ _ _ w => (0, m, w + 1)

/-- Pass-through hook A. -/
def demo_A : packet_filter_hook := ⟨1, 10, 11, 128, "A"⟩

/-- Pass-through hook B. -/
def demo_B : packet_filter_hook := ⟨1, 20, 22, 128, "B"⟩

/-- Pass-through hook C. -/
def demo_C : packet_filter_hook := ⟨1, 30, 33, 128, "C"⟩

/-- A hook that consumes the packet. -/
def demo_drop : packet_filter_hook := ⟨2, 20, 44, 128, "drop"⟩

/-- A hook that aborts with 42. -/
def demo_abort : packet_filter_hook := ⟨3, 20, 55, 128, "abort"⟩

/-- A head with A, B, C on both lists. -/
def demo_head_abc : pfil_head := ⟨2, 1, 6, [demo_A, demo_B, demo_C], [demo_A, demo_B, demo_C]⟩

/-- A head whose output list is A, drop, C. -/
def demo_head_drop : pfil_head := ⟨2, 1, 3, [], [demo_A, demo_drop, demo_C]⟩

/-- A head whose output list is A, abort, C. -/
def demo_head_abort : pfil_head := ⟨2, 1, 3, [], [demo_A, demo_abort, demo_C]⟩

/-- A head whose input list is C alone. -/
def demo_head_c : pfil_head := ⟨2, 1, 1, [demo_C], []⟩

/-- Surroundings in which both allocations succeed. -/
def demo_env : pfil_env := ⟨true, true, 1001, 1002⟩

/-- A head record as handed to `pfil_head_register`. -/
def demo_head0 : pfil_head := ⟨2, 1, 0, [], []⟩

/-- The adds of scenarios S1 and S2: A with order 100, B with order 50, C with
order 100, in that order, with the given flags. -/
def demo_adds (fl : Nat) : List pfil_op :=
  [.add_order 1 10 "A" fl 100 demo_env, .add_order 1 20 "B" fl 50 demo_env,
   .add_order 1 30 "C" fl 100 demo_env]

/-- A head record of another family, as handed to `pfil_head_register`. -/
def demo_head1 : pfil_head := ⟨28, 1, 0, [], []⟩

/-- Surroundings in which the first allocation fails and `random()` returns 0. -/
def demo_env_bad : pfil_env := ⟨false, true, 0, 0⟩

/-- Surroundings in which both allocations succeed and `random()` returns 0. -/
def demo_env_zero : pfil_env := ⟨true, true, 0, 0⟩

/-- An add of A on the output side followed by an add of the same identity on
both sides. -/
def demo_rollback_ops : List pfil_op :=
  [.add_order 1 10 "A" PFIL_OUT 128 demo_env, .add_order 1 10 "A" PFIL_ALL 128 demo_env]

/-- A head whose output list holds A and whose input list is empty. -/
def demo_head_out_a : pfil_head := ⟨2, 1, 1, [], [demo_A]⟩

/-- A head whose input list holds A and whose output list is empty. -/
def demo_head_in_a : pfil_head := ⟨2, 1, 1, [demo_A], []⟩

/-- Three adds through `pfil_add_hook`: A on both sides, B on the output side, C
on both sides. -/
def demo_default_adds : List pfil_op :=
  [.add 1 10 PFIL_ALL demo_env, .add 1 20 PFIL_OUT demo_env, .add 1 30 PFIL_ALL demo_env]

end Pfil

namespace Pfil

/-! ## Dispatch: lemmas on the walk -/

theorem walk_all_pass {σ : Type} (code : Nat → pfil_func_t σ) (ifp : Nat) (dir : Int)
    (inp : Nat) (hooks : pfil_list_t) :
    ∀ (m : Nat) (rv : Int) (w : σ), rv = 0 → all_pass code ifp dir inp hooks m w →
      (pfil_walk code ifp dir inp hooks 0 m rv w).calls.map pfil_call.hook = hooks ∧
      calls_chained m (pfil_walk code ifp dir inp hooks 0 m rv w).calls ∧
      (∀ c ∈ (pfil_walk code ifp dir inp hooks 0 m rv w).calls, c.rv = 0 ∧ c.m_out ≠ 0) ∧
      (pfil_walk code ifp dir inp hooks 0 m rv w).rv = 0 ∧
      (pfil_walk code ifp dir inp hooks 0 m rv w).m =
        calls_last m (pfil_walk code ifp dir inp hooks 0 m rv w).calls ∧
      (pfil_walk code ifp dir inp hooks 0 m rv w).m = (pfil_chain code ifp dir inp hooks m w).1 ∧
      (pfil_walk code ifp dir inp hooks 0 m rv w).world =
        (pfil_chain code ifp dir inp hooks m w).2 := by
  induction hooks with
  | nil =>
    intro m rv w hrv _
    simp [pfil_walk, calls_chained, calls_last, pfil_chain, hrv]
  | cons h t ih =>
    intro m rv w _ hp
    obtain ⟨hf, h0, hm, hrest⟩ := hp
    have hstop : ¬ ((code h.pfil_func h.pfil_arg m ifp dir inp w).1 ≠ 0 ∨
        (code h.pfil_func h.pfil_arg m ifp dir inp w).2.1 = 0) := by
      rintro (h1 | h1)
      · exact h1 h0
      · exact hm h1
    obtain ⟨i1, i2, i3, i4, i5, i6, i7⟩ := ih _ _ _ h0 hrest
    have hw : pfil_walk code ifp dir inp (h :: t) 0 m rv w =
        ⟨(pfil_walk code ifp dir inp t 0 (code h.pfil_func h.pfil_arg m ifp dir inp w).2.1
            (code h.pfil_func h.pfil_arg m ifp dir inp w).1
            (code h.pfil_func h.pfil_arg m ifp dir inp w).2.2).rv,
         (pfil_walk code ifp dir inp t 0 (code h.pfil_func h.pfil_arg m ifp dir inp w).2.1
            (code h.pfil_func h.pfil_arg m ifp dir inp w).1
            (code h.pfil_func h.pfil_arg m ifp dir inp w).2.2).m,
         (pfil_walk code ifp dir inp t 0 (code h.pfil_func h.pfil_arg m ifp dir inp w).2.1
            (code h.pfil_func h.pfil_arg m ifp dir inp w).1
            (code h.pfil_func h.pfil_arg m ifp dir inp w).2.2).world,
         ⟨h, m, (code h.pfil_func h.pfil_arg m ifp dir inp w).1,
            (code h.pfil_func h.pfil_arg m ifp dir inp w).2.1⟩ ::
         (pfil_walk code ifp dir inp t 0 (code h.pfil_func h.pfil_arg m ifp dir inp w).2.1
            (code h.pfil_func h.pfil_arg m ifp dir inp w).1
            (code h.pfil_func h.pfil_arg m ifp dir inp w).2.2).calls⟩ := by
      simp only [pfil_walk, ne_eq, not_true_eq_false, if_false, hf, not_false_eq_true, if_true,
        hstop]
    rw [hw]
    refine ⟨?_, ?_, ?_, ?_, ?_, ?_, ?_⟩
    · simp [i1]
    · exact ⟨rfl, i2⟩
    · intro c hc
      rcases List.mem_cons.mp hc with rfl | hc
      · exact ⟨h0, hm⟩
      · exact i3 c hc
    · exact i4
    · simpa [calls_last] using i5
    · simpa [pfil_chain] using i6
    · simpa [pfil_chain] using i7

theorem walk_stop {σ : Type} (code : Nat → pfil_func_t σ) (ifp : Nat) (dir : Int)
    (inp : Nat) (k : packet_filter_hook) (post : pfil_list_t) (pre : pfil_list_t) :
    ∀ (m : Nat) (rv : Int) (w : σ), all_pass code ifp dir inp pre m w →
      k.pfil_func ≠ 0 →
      ((code k.pfil_func k.pfil_arg (pfil_chain code ifp dir inp pre m w).1 ifp dir inp
          (pfil_chain code ifp dir inp pre m w).2).1 ≠ 0 ∨
       (code k.pfil_func k.pfil_arg (pfil_chain code ifp dir inp pre m w).1 ifp dir inp
          (pfil_chain code ifp dir inp pre m w).2).2.1 = 0) →
      (pfil_walk code ifp dir inp (pre ++ k :: post) 0 m rv w).calls.map pfil_call.hook
        = pre ++ [k] ∧
      calls_chained m (pfil_walk code ifp dir inp (pre ++ k :: post) 0 m rv w).calls ∧
      (pfil_walk code ifp dir inp (pre ++ k :: post) 0 m rv w).rv =
        (code k.pfil_func k.pfil_arg (pfil_chain code ifp dir inp pre m w).1 ifp dir inp
          (pfil_chain code ifp dir inp pre m w).2).1 ∧
      (pfil_walk code ifp dir inp (pre ++ k :: post) 0 m rv w).m =
        (code k.pfil_func k.pfil_arg (pfil_chain code ifp dir inp pre m w).1 ifp dir inp
          (pfil_chain code ifp dir inp pre m w).2).2.1 ∧
      (pfil_walk code ifp dir inp (pre ++ k :: post) 0 m rv w).world =
        (code k.pfil_func k.pfil_arg (pfil_chain code ifp dir inp pre m w).1 ifp dir inp
          (pfil_chain code ifp dir inp pre m w).2).2.2 := by
  induction pre with
  | nil =>
    intro m rv w _ hk hs
    simp only [pfil_chain] at hs
    simp only [List.nil_append, pfil_walk, ne_eq, not_true_eq_false, if_false, hk,
      not_false_eq_true, if_true, pfil_chain]
    rw [if_pos hs]
    simp [calls_chained]
  | cons h t ih =>
    intro m rv w hp hk hs
    obtain ⟨hf, h0, hm, hrest⟩ := hp
    have hstop : ¬ ((code h.pfil_func h.pfil_arg m ifp dir inp w).1 ≠ 0 ∨
        (code h.pfil_func h.pfil_arg m ifp dir inp w).2.1 = 0) := by
      rintro (h1 | h1)
      · exact h1 h0
      · exact hm h1
    simp only [pfil_chain] at hs
    obtain ⟨i1, i2, i3, i4, i5⟩ :=
      ih (code h.pfil_func h.pfil_arg m ifp dir inp w).2.1
        (code h.pfil_func h.pfil_arg m ifp dir inp w).1
        (code h.pfil_func h.pfil_arg m ifp dir inp w).2.2 hrest hk hs
    simp only [List.cons_append, pfil_walk, ne_eq, not_true_eq_false, if_false, hf,
      not_false_eq_true, if_true, hstop, pfil_chain]
    refine ⟨?_, ?_, i3, i4, i5⟩
    · simp [i1]
    · exact ⟨rfl, i2⟩

theorem walk_skip {σ : Type} (code : Nat → pfil_func_t σ) (ifp : Nat) (dir : Int)
    (inp : Nat) (c : Int) (hc : c ≠ 0) (hooks : pfil_list_t) :
    ∀ (m : Nat) (rv : Int) (w : σ),
      pfil_walk code ifp dir inp hooks c m rv w =
        pfil_walk code ifp dir inp (hooks_after c hooks) 0 m rv w := by
  induction hooks with
  | nil => intro m rv w; simp [pfil_walk, hooks_after]
  | cons h t ih =>
    intro m rv w
    by_cases hh : h.pfil_cookie = c
    · simp [pfil_walk, hooks_after, hc, hh]
    · simp only [pfil_walk, ne_eq, hc, not_false_eq_true, if_true, hh, if_false, hooks_after]
      exact ih m rv w

theorem hooks_after_none (c : Int) (hooks : pfil_list_t)
    (h : ∀ x ∈ hooks, x.pfil_cookie ≠ c) : hooks_after c hooks = [] := by
  induction hooks with
  | nil => rfl
  | cons a t ih =>
    have ha : a.pfil_cookie ≠ c := h a (List.mem_cons_self _ _)
    simp only [hooks_after, ha, if_false]
    exact ih (fun x hx => h x (List.mem_cons_of_mem _ hx))

theorem hooks_after_split (c : Int) (hooks : pfil_list_t) (x : packet_filter_hook)
    (hx : x ∈ hooks) (hxc : x.pfil_cookie = c) :
    ∃ pre k, hooks = pre ++ k :: hooks_after c hooks ∧ k.pfil_cookie = c ∧
      ∀ y ∈ pre, y.pfil_cookie ≠ c := by
  induction hooks with
  | nil => cases hx
  | cons a t ih =>
    by_cases ha : a.pfil_cookie = c
    · exact ⟨[], a, by simp [hooks_after, ha], ha, by simp⟩
    · have hxt : x ∈ t := by
        rcases List.mem_cons.mp hx with rfl | h
        · exact absurd hxc ha
        · exact h
      obtain ⟨pre, k, e, hk, hpre⟩ := ih hxt
      refine ⟨a :: pre, k, ?_, hk, ?_⟩
      · simp only [hooks_after, ha, if_false, List.cons_append]
        exact congrArg _ e
      · intro y hy
        rcases List.mem_cons.mp hy with rfl | h
        · exact ha
        · exact hpre y h

theorem walk_calls_sublist {σ : Type} (code : Nat → pfil_func_t σ) (ifp : Nat) (dir : Int)
    (inp : Nat) (hooks : pfil_list_t) :
    ∀ (c : Int) (m : Nat) (rv : Int) (w : σ),
      ((pfil_walk code ifp dir inp hooks c m rv w).calls.map pfil_call.hook).Sublist hooks := by
  induction hooks with
  | nil => intro c m rv w; simp [pfil_walk]
  | cons h t ih =>
    intro c m rv w
    by_cases hc : c = 0
    · subst hc
      by_cases hf : h.pfil_func = 0
      · simp only [pfil_walk, ne_eq, not_true_eq_false, if_false, hf]
        exact (ih 0 m rv w).cons h
      · by_cases hs : (code h.pfil_func h.pfil_arg m ifp dir inp w).1 ≠ 0 ∨
            (code h.pfil_func h.pfil_arg m ifp dir inp w).2.1 = 0
        · simp only [pfil_walk, ne_eq, not_true_eq_false, if_false, hf, not_false_eq_true,
            if_true]
          rw [if_pos hs]
          simp
        · simp only [pfil_walk, ne_eq, not_true_eq_false, if_false, hf, not_false_eq_true,
            if_true]
          rw [if_neg hs]
          simp only [List.map_cons]
          exact (ih _ _ _ _).cons₂ h
    · simp only [pfil_walk, ne_eq, hc, not_false_eq_true, if_true]
      exact (ih _ m rv w).cons h

end Pfil

namespace Pfil

/-! ## Dispatch: the claims -/

/-- C1: dispatch with cookie 0 (`pfil_run_hooks`, which is `pfil_run_inject` with
cookie 0). If every hook of the list chosen by the direction has a function that,
called on the packet left by the hook before it (the first on `*mp`), returns 0 and
leaves a non-null packet, then the hooks invoked are exactly the hooks of the list,
each once and in list order, every call receives the packet the previous call left,
the result is 0 and `*mp` holds the packet left by the last hook (the starting
packet when the list is empty). -/
theorem C1_run_hooks_all_pass {σ : Type} (code : Nat → pfil_func_t σ) (ph : pfil_head)
    (m ifp : Nat) (dir : Int) (inp : Nat) (w : σ)
    (hpass : all_pass code ifp dir inp (pfil_hook_get dir ph) m w) :
    pfil_run_hooks code ph m ifp dir inp w = pfil_run_inject code ph m ifp dir inp 0 w ∧
    (pfil_run_hooks code ph m ifp dir inp w).calls.map pfil_call.hook = pfil_hook_get dir ph ∧
    calls_chained m (pfil_run_hooks code ph m ifp dir inp w).calls ∧
    (pfil_run_hooks code ph m ifp dir inp w).rv = 0 ∧
    (pfil_run_hooks code ph m ifp dir inp w).m =
      calls_last m (pfil_run_hooks code ph m ifp dir inp w).calls := by
  obtain ⟨i1, i2, _, i4, i5, _, _⟩ :=
    walk_all_pass code ifp dir inp (pfil_hook_get dir ph) m 0 w rfl hpass
  exact ⟨rfl, i1, i2, i4, i5⟩

/-- Instance of C1: three pass-through hooks A, B, C on the input list, packet 7. -/
theorem C1_run_hooks_all_pass_witness :
    all_pass demo_code 0 1 0 (pfil_hook_get 1 demo_head_abc) 7 0 ∧
    (pfil_run_hooks demo_code demo_head_abc 7 0 1 0 0).calls.map pfil_call.hook
      = [demo_A, demo_B, demo_C] ∧
    (pfil_run_hooks demo_code demo_head_abc 7 0 1 0 0).rv = 0 ∧
    (pfil_run_hooks demo_code demo_head_abc 7 0 1 0 0).m = 7 := by
  have hp : all_pass demo_code 0 1 0 (pfil_hook_get 1 demo_head_abc) 7 0 := by
    simp [all_pass, pfil_hook_get, demo_head_abc, demo_code, demo_A, demo_B, demo_C, PFIL_IN]
  have h := C1_run_hooks_all_pass demo_code demo_head_abc 7 0 1 0 0 hp
  exact ⟨hp, h.2.1, h.2.2.2.1, h.2.2.2.2⟩

/-- C2: dispatch with cookie 0 stops at the first stopping hook. When the list is
`pre ++ k :: post`, the hooks of `pre` all pass and `k`, called on what they left,
returns a nonzero value or leaves the packet null, then the hooks invoked are
exactly those of `pre` followed by `k` (none of `post`), the result is exactly the
value `k` returned (0 when `k` only nulled the packet) and `*mp` holds what `k`
left. -/
theorem C2_run_inject_stops_at_first {σ : Type} (code : Nat → pfil_func_t σ) (ph : pfil_head)
    (m ifp : Nat) (dir : Int) (inp : Nat) (w : σ) (pre : pfil_list_t)
    (k : packet_filter_hook) (post : pfil_list_t)
    (hlist : pfil_hook_get dir ph = pre ++ k :: post)
    (hpre : all_pass code ifp dir inp pre m w)
    (hk : k.pfil_func ≠ 0)
    (hstop :
      (code k.pfil_func k.pfil_arg (pfil_chain code ifp dir inp pre m w).1 ifp dir inp
          (pfil_chain code ifp dir inp pre m w).2).1 ≠ 0 ∨
      (code k.pfil_func k.pfil_arg (pfil_chain code ifp dir inp pre m w).1 ifp dir inp
          (pfil_chain code ifp dir inp pre m w).2).2.1 = 0) :
    (pfil_run_inject code ph m ifp dir inp 0 w).calls.map pfil_call.hook = pre ++ [k] ∧
    calls_chained m (pfil_run_inject code ph m ifp dir inp 0 w).calls ∧
    (pfil_run_inject code ph m ifp dir inp 0 w).rv =
      (code k.pfil_func k.pfil_arg (pfil_chain code ifp dir inp pre m w).1 ifp dir inp
          (pfil_chain code ifp dir inp pre m w).2).1 ∧
    (pfil_run_inject code ph m ifp dir inp 0 w).m =
      (code k.pfil_func k.pfil_arg (pfil_chain code ifp dir inp pre m w).1 ifp dir inp
          (pfil_chain code ifp dir inp pre m w).2).2.1 := by
  unfold pfil_run_inject
  rw [hlist]
  obtain ⟨i1, i2, i3, i4, _⟩ := walk_stop code ifp dir inp k post pre m 0 w hpre hk hstop
  exact ⟨i1, i2, i3, i4⟩

/-- Instances of C2: three output hooks whose middle one nulls the packet and
returns 0 (result 0, packet null, third not called), and three output hooks whose
middle one returns 42 (result 42, packet as left, third not called). -/
theorem C2_run_inject_stops_at_first_witness :
    ((pfil_run_inject demo_code demo_head_drop 7 0 2 0 0 0).calls.map pfil_call.hook
        = [demo_A, demo_drop] ∧
      (pfil_run_inject demo_code demo_head_drop 7 0 2 0 0 0).rv = 0 ∧
      (pfil_run_inject demo_code demo_head_drop 7 0 2 0 0 0).m = 0) ∧
    ((pfil_run_inject demo_code demo_head_abort 7 0 2 0 0 0).calls.map pfil_call.hook
        = [demo_A, demo_abort] ∧
      (pfil_run_inject demo_code demo_head_abort 7 0 2 0 0 0).rv = 42 ∧
      (pfil_run_inject demo_code demo_head_abort 7 0 2 0 0 0).m = 7) := by
  have h1 := C2_run_inject_stops_at_first demo_code demo_head_drop 7 0 2 0 0
    [demo_A] demo_drop [demo_C] rfl
    (by simp [all_pass, demo_code, demo_A]) (by decide) (Or.inr rfl)
  have h2 := C2_run_inject_stops_at_first demo_code demo_head_abort 7 0 2 0 0
    [demo_A] demo_abort [demo_C] rfl
    (by simp [all_pass, demo_code, demo_A]) (by decide) (Or.inl (by decide))
  exact ⟨⟨h1.1, h1.2.2.1, h1.2.2.2⟩, ⟨h2.1, h2.2.2.1, h2.2.2.2⟩⟩

/-- C3: skip-ahead. For a nonzero cookie `c`, `pfil_run_inject` with cookie `c`
gives exactly the outcome of dispatch with cookie 0 on a head whose list holds the
hooks strictly after the first hook with cookie `c`; the hooks it invokes all lie
in that part of the list, so no hook up to and including that hook is invoked; when
no hook has cookie `c` nothing is invoked, the result is 0 and `*mp` is unchanged.
The last part says what `hooks_after` is: the list splits into hooks whose cookie
is not `c`, the first hook with cookie `c`, and `hooks_after`. -/
theorem C3_run_inject_skip_ahead {σ : Type} (code : Nat → pfil_func_t σ) (ph : pfil_head)
    (m ifp : Nat) (dir : Int) (inp : Nat) (w : σ) (c : Int) (hc : c ≠ 0) :
    (∀ ph2 : pfil_head, pfil_hook_get dir ph2 = hooks_after c (pfil_hook_get dir ph) →
      pfil_run_inject code ph m ifp dir inp c w = pfil_run_inject code ph2 m ifp dir inp 0 w) ∧
    ((pfil_run_inject code ph m ifp dir inp c w).calls.map pfil_call.hook).Sublist
      (hooks_after c (pfil_hook_get dir ph)) ∧
    ((∀ x ∈ pfil_hook_get dir ph, x.pfil_cookie ≠ c) →
      (pfil_run_inject code ph m ifp dir inp c w).calls = [] ∧
      (pfil_run_inject code ph m ifp dir inp c w).rv = 0 ∧
      (pfil_run_inject code ph m ifp dir inp c w).m = m ∧
      (pfil_run_inject code ph m ifp dir inp c w).world = w) ∧
    (∀ x ∈ pfil_hook_get dir ph, x.pfil_cookie = c →
      ∃ pre k, pfil_hook_get dir ph = pre ++ k :: hooks_after c (pfil_hook_get dir ph) ∧
        k.pfil_cookie = c ∧ ∀ y ∈ pre, y.pfil_cookie ≠ c) := by
  refine ⟨?_, ?_, ?_, ?_⟩
  · intro ph2 h2
    unfold pfil_run_inject
    rw [h2]
    exact walk_skip code ifp dir inp c hc _ m 0 w
  · unfold pfil_run_inject
    rw [walk_skip code ifp dir inp c hc _ m 0 w]
    exact walk_calls_sublist code ifp dir inp _ 0 m 0 w
  · intro hnone
    unfold pfil_run_inject
    rw [walk_skip code ifp dir inp c hc _ m 0 w, hooks_after_none c _ hnone]
    simp [pfil_walk]
  · intro x hx hxc
    exact hooks_after_split c _ x hx hxc

/-- Instance of C3: hooks A, B, C on the input list, all pass-through; with the
cookie of B only C is invoked. -/
theorem C3_run_inject_skip_ahead_witness :
    demo_B.pfil_cookie ≠ 0 ∧
    pfil_run_inject demo_code demo_head_abc 7 0 1 0 demo_B.pfil_cookie 0
      = pfil_run_inject demo_code demo_head_c 7 0 1 0 0 0 ∧
    (pfil_run_inject demo_code demo_head_abc 7 0 1 0 demo_B.pfil_cookie 0).calls.map
      pfil_call.hook = [demo_C] := by
  have hc : demo_B.pfil_cookie ≠ 0 := by decide
  have h := (C3_run_inject_skip_ahead demo_code demo_head_abc 7 0 1 0 0
    demo_B.pfil_cookie hc).1 demo_head_c rfl
  refine ⟨hc, h, ?_⟩
  rw [h]
  rfl

end Pfil

namespace Pfil

/-! ## Hook-list store: lemmas on insertion and removal -/

theorem tailq_insert_before_some (p : packet_filter_hook → Bool) (x : packet_filter_hook)
    (l : pfil_list_t) :
    ∀ l2, tailq_insert_before p x l = some l2 →
      ∃ pre post, l = pre ++ post ∧ l2 = pre ++ x :: post ∧ ∀ e ∈ pre, p e = false := by
  induction l with
  | nil => intro l2 h; simp [tailq_insert_before] at h
  | cons a t ih =>
    intro l2 h
    by_cases hp : p a = true
    · simp only [tailq_insert_before, hp, if_true, Option.some.injEq] at h
      exact ⟨[], a :: t, rfl, by simp [← h], by simp⟩
    · simp only [tailq_insert_before, hp] at h
      cases hr : tailq_insert_before p x t with
      | none => simp [hr] at h
      | some t2 =>
        simp only [hr, Bool.false_eq_true, if_false, Option.some.injEq] at h
        obtain ⟨pre, post, e1, e2, e3⟩ := ih t2 hr
        refine ⟨a :: pre, post, by simp [e1], by simp [← h, e2], ?_⟩
        intro e he
        rcases List.mem_cons.mp he with rfl | he
        · simpa using hp
        · exact e3 e he

theorem tailq_insert_after_last_some (p : packet_filter_hook → Bool) (x : packet_filter_hook)
    (l : pfil_list_t) :
    ∀ l2, tailq_insert_after_last p x l = some l2 →
      ∃ pre post, l = pre ++ post ∧ l2 = pre ++ x :: post ∧ ∀ e ∈ post, p e = false := by
  induction l with
  | nil => intro l2 h; simp [tailq_insert_after_last] at h
  | cons a t ih =>
    intro l2 h
    cases hr : tailq_insert_after_last p x t with
    | some t2 =>
      simp only [tailq_insert_after_last, hr, Option.some.injEq] at h
      obtain ⟨pre, post, e1, e2, e3⟩ := ih t2 hr
      exact ⟨a :: pre, post, by simp [e1], by simp [← h, e2], e3⟩
    | none =>
      simp only [tailq_insert_after_last, hr] at h
      by_cases hp : p a = true
      · simp only [hp, if_true, Option.some.injEq] at h
        refine ⟨[a], t, rfl, by simp [← h], ?_⟩
        clear h
        induction t with
        | nil => simp
        | cons b u ihu =>
          cases hu : tailq_insert_after_last p x u with
          | some u2 => simp [tailq_insert_after_last, hu] at hr
          | none =>
            simp only [tailq_insert_after_last, hu] at hr
            have hb : p b = false := by
              by_cases hb : p b = true
              · simp [hb] at hr
              · simpa using hb
            intro e he
            rcases List.mem_cons.mp he with rfl | he
            · exact hb
            · exact ihu (fun l2 h => by simp [hu] at h) hu e he
      · simp [hp] at h

/-- The shape of a successful `pfil_list_add`: the new hook is placed at one
position; on the input side no hook before it, on the output side no hook after
it, has an order that passes the comparison of the walk. -/
theorem pfil_list_add_shape (list : pfil_list_t) (pfh1 : packet_filter_hook) (flags order : Nat)
    (hnew : list.any (same_ident pfh1.pfil_func pfh1.pfil_arg) = false) :
    (pfil_list_add list pfh1 flags order).1 = 0 ∧
    ∃ pre post, list = pre ++ post ∧ (pfil_list_add list pfh1 flags order).2 = pre ++ pfh1 :: post ∧
      (flags &&& PFIL_IN ≠ 0 → ∀ e ∈ pre, ¬ e.pfil_order ≤ order) ∧
      (flags &&& PFIL_IN = 0 → ∀ e ∈ post, ¬ order ≤ e.pfil_order) := by
  unfold pfil_list_add
  rw [hnew]
  by_cases hin : flags &&& PFIL_IN ≠ 0
  · rw [if_neg Bool.false_ne_true, if_pos hin]
    cases hr : tailq_insert_before (fun pfh => decide (pfh.pfil_order ≤ order)) pfh1 list with
    | none =>
      exact ⟨rfl, [], list, rfl, rfl, by simp, fun h => absurd h hin⟩
    | some l2 =>
      obtain ⟨pre, post, e1, e2, e3⟩ := tailq_insert_before_some _ _ _ l2 hr
      refine ⟨rfl, pre, post, e1, e2, ?_, fun h => absurd h hin⟩
      intro _ e he
      simpa using e3 e he
  · rw [if_neg Bool.false_ne_true, if_neg hin]
    cases hr : tailq_insert_after_last (fun pfh => decide (order ≤ pfh.pfil_order)) pfh1 list with
    | none =>
      exact ⟨rfl, list, [], by simp, by simp, fun h => absurd h hin, by simp⟩
    | some l2 =>
      obtain ⟨pre, post, e1, e2, e3⟩ := tailq_insert_after_last_some _ _ _ l2 hr
      refine ⟨rfl, pre, post, e1, e2, fun h => absurd h hin, ?_⟩
      intro _ e he
      simpa using e3 e he

theorem any_same_ident_iff (func arg : Nat) (list : pfil_list_t) :
    list.any (same_ident func arg) = true ↔
      ∃ pfh ∈ list, pfh.pfil_func = func ∧ pfh.pfil_arg = arg := by
  simp [List.any_eq_true, same_ident]

theorem pfil_list_remove_absent (list : pfil_list_t) (func arg : Nat)
    (h : ∀ e ∈ list, ¬ (e.pfil_func = func ∧ e.pfil_arg = arg)) :
    pfil_list_remove list func arg = (ENOENT, list) := by
  induction list with
  | nil => rfl
  | cons a t ih =>
    have ha := h a (List.mem_cons_self _ _)
    have := ih (fun e he => h e (List.mem_cons_of_mem _ he))
    simp [pfil_list_remove, ha, this]

theorem pfil_list_remove_first (pre : pfil_list_t) (x : packet_filter_hook) (post : pfil_list_t)
    (func arg : Nat) (hx : x.pfil_func = func ∧ x.pfil_arg = arg)
    (hpre : ∀ e ∈ pre, ¬ (e.pfil_func = func ∧ e.pfil_arg = arg)) :
    pfil_list_remove (pre ++ x :: post) func arg = (0, pre ++ post) := by
  induction pre with
  | nil => simp [pfil_list_remove, hx]
  | cons a t ih =>
    have ha := hpre a (List.mem_cons_self _ _)
    have := ih (fun e he => hpre e (List.mem_cons_of_mem _ he))
    simp [pfil_list_remove, ha, this]

theorem split_first_ident (list : pfil_list_t) (func arg : Nat)
    (h : ∃ pfh ∈ list, pfh.pfil_func = func ∧ pfh.pfil_arg = arg) :
    ∃ pre x post, list = pre ++ x :: post ∧ (x.pfil_func = func ∧ x.pfil_arg = arg) ∧
      ∀ e ∈ pre, ¬ (e.pfil_func = func ∧ e.pfil_arg = arg) := by
  induction list with
  | nil => obtain ⟨_, hm, _⟩ := h; cases hm
  | cons a t ih =>
    by_cases ha : a.pfil_func = func ∧ a.pfil_arg = arg
    · exact ⟨[], a, t, rfl, ha, by simp⟩
    · obtain ⟨pfh, hm, hp⟩ := h
      have ht : ∃ pfh ∈ t, pfh.pfil_func = func ∧ pfh.pfil_arg = arg := by
        rcases List.mem_cons.mp hm with rfl | hm
        · exact absurd hp ha
        · exact ⟨pfh, hm, hp⟩
      obtain ⟨pre, x, post, e1, e2, e3⟩ := ih ht
      refine ⟨a :: pre, x, post, by simp [e1], e2, ?_⟩
      intro e he
      rcases List.mem_cons.mp he with rfl | he
      · exact ha
      · exact e3 e he

/-! ## Hook-list store: the claims on `pfil_list_add` and `pfil_list_remove` -/

/-- C8: `pfil_list_add` returns `EEXIST` exactly when some hook on the list has the
same `pfil_func` and the same `pfil_arg` as the new hook, and then the list is
unchanged; otherwise it returns 0 and the new list is the old list with the new
hook inserted at one position, so the length grows by one and every hook present
before is kept in the same relative order. -/
theorem C8_list_add_eexist_iff_duplicate (list : pfil_list_t) (pfh1 : packet_filter_hook)
    (flags order : Nat) :
    ((pfil_list_add list pfh1 flags order).1 = EEXIST ↔
      ∃ pfh ∈ list, pfh.pfil_func = pfh1.pfil_func ∧ pfh.pfil_arg = pfh1.pfil_arg) ∧
    ((∃ pfh ∈ list, pfh.pfil_func = pfh1.pfil_func ∧ pfh.pfil_arg = pfh1.pfil_arg) →
      (pfil_list_add list pfh1 flags order).2 = list) ∧
    ((¬ ∃ pfh ∈ list, pfh.pfil_func = pfh1.pfil_func ∧ pfh.pfil_arg = pfh1.pfil_arg) →
      (pfil_list_add list pfh1 flags order).1 = 0 ∧
      (pfil_list_add list pfh1 flags order).2.length = list.length + 1 ∧
      ∃ pre post, list = pre ++ post ∧
        (pfil_list_add list pfh1 flags order).2 = pre ++ pfh1 :: post) := by
  have hdup : (∃ pfh ∈ list, pfh.pfil_func = pfh1.pfil_func ∧ pfh.pfil_arg = pfh1.pfil_arg) →
      pfil_list_add list pfh1 flags order = (EEXIST, list) := by
    intro h
    have := (any_same_ident_iff pfh1.pfil_func pfh1.pfil_arg list).mpr h
    simp [pfil_list_add, this]
  have hnew : (¬ ∃ pfh ∈ list, pfh.pfil_func = pfh1.pfil_func ∧ pfh.pfil_arg = pfh1.pfil_arg) →
      (pfil_list_add list pfh1 flags order).1 = 0 ∧
      ∃ pre post, list = pre ++ post ∧
        (pfil_list_add list pfh1 flags order).2 = pre ++ pfh1 :: post := by
    intro h
    have hany : list.any (same_ident pfh1.pfil_func pfh1.pfil_arg) = false := by
      rw [← Bool.not_eq_true]
      exact fun h2 => h ((any_same_ident_iff _ _ list).mp h2)
    obtain ⟨e0, pre, post, e1, e2, _, _⟩ := pfil_list_add_shape list pfh1 flags order hany
    exact ⟨e0, pre, post, e1, e2⟩
  refine ⟨⟨?_, fun h => by rw [hdup h]⟩, fun h => by rw [hdup h], ?_⟩
  · intro h
    by_contra hn
    have := (hnew hn).1
    rw [h] at this
    exact absurd this (by decide)
  · intro h
    obtain ⟨e0, pre, post, e1, e2⟩ := hnew h
    refine ⟨e0, ?_, pre, post, e1, e2⟩
    rw [e2, e1]
    simp
    omega

/-- C10: `pfil_list_remove`. If some hook on the list has the identity
`(func, arg)`, the result is 0 and the list afterwards is the old list with the
first such hook from the head deleted and every other hook kept in place; if no
hook has that identity, the result is `ENOENT` and the list is unchanged. -/
theorem C10_list_remove_first_match (list : pfil_list_t) (func arg : Nat) :
    ((∃ pfh ∈ list, pfh.pfil_func = func ∧ pfh.pfil_arg = arg) →
      (pfil_list_remove list func arg).1 = 0 ∧
      ∃ pre x post, list = pre ++ x :: post ∧ (x.pfil_func = func ∧ x.pfil_arg = arg) ∧
        (∀ e ∈ pre, ¬ (e.pfil_func = func ∧ e.pfil_arg = arg)) ∧
        (pfil_list_remove list func arg).2 = pre ++ post) ∧
    ((¬ ∃ pfh ∈ list, pfh.pfil_func = func ∧ pfh.pfil_arg = arg) →
      (pfil_list_remove list func arg).1 = ENOENT ∧
      (pfil_list_remove list func arg).2 = list) := by
  constructor
  · intro h
    obtain ⟨pre, x, post, e1, e2, e3⟩ := split_first_ident list func arg h
    have := pfil_list_remove_first pre x post func arg e2 e3
    rw [← e1] at this
    rw [this]
    exact ⟨rfl, pre, x, post, e1, e2, e3, rfl⟩
  · intro h
    have := pfil_list_remove_absent list func arg (fun e he hp => h ⟨e, he, hp⟩)
    rw [this]
    exact ⟨rfl, rfl⟩

end Pfil

namespace Pfil

/-! ## Administrative calls: what one call does to each list -/

theorem flags_clear_out_in (fl : Nat) : flags_clear fl PFIL_OUT &&& PFIL_IN = fl &&& PFIL_IN := by
  unfold flags_clear
  rw [Nat.and_assoc]
  rfl

theorem flags_clear_in_in (fl : Nat) : flags_clear fl PFIL_IN &&& PFIL_IN = 0 := by
  unfold flags_clear
  rw [Nat.and_assoc]
  exact Nat.and_zero fl

theorem pfil_list_add_dup (list : pfil_list_t) (pfh1 : packet_filter_hook) (flags order : Nat)
    (h : list.any (same_ident pfh1.pfil_func pfh1.pfil_arg) = true) :
    pfil_list_add list pfh1 flags order = (EEXIST, list) := by
  simp [pfil_list_add, h]

theorem pfil_list_add_fst_ne_zero (list : pfil_list_t) (pfh1 : packet_filter_hook)
    (flags order : Nat) :
    (pfil_list_add list pfh1 flags order).1 ≠ 0 ↔
      list.any (same_ident pfh1.pfil_func pfh1.pfil_arg) = true := by
  cases h : list.any (same_ident pfh1.pfil_func pfh1.pfil_arg) with
  | true => rw [pfil_list_add_dup list pfh1 flags order h]; simp [EEXIST]
  | false => simp [(pfil_list_add_shape list pfh1 flags order h).1]

theorem pfil_list_remove_add (list : pfil_list_t) (pfh1 : packet_filter_hook) (flags order : Nat)
    (h : list.any (same_ident pfh1.pfil_func pfh1.pfil_arg) = false) :
    (pfil_list_remove (pfil_list_add list pfh1 flags order).2 pfh1.pfil_func pfh1.pfil_arg)
      = (0, list) := by
  obtain ⟨_, pre, post, e1, e2, _, _⟩ := pfil_list_add_shape list pfh1 flags order h
  rw [e2, e1]
  apply pfil_list_remove_first pre pfh1 post _ _ ⟨rfl, rfl⟩
  intro e he hp
  have : list.any (same_ident pfh1.pfil_func pfh1.pfil_arg) = true :=
    (any_same_ident_iff _ _ list).mpr ⟨e, by rw [e1]; exact List.mem_append_left _ he, hp⟩
  rw [h] at this
  cases this

/-- What `pfil_add_hook_order` does to the input list: nothing, or (only when it
returns 0 with `PFIL_IN` set and no duplicate) the insertion by `pfil_list_add`. -/
theorem add_order_in (func arg : Nat) (name : String) (fl order : Nat) (ph : pfil_head)
    (env : pfil_env) :
    (pfil_add_hook_order func arg name fl order ph env).2.ph_in = ph.ph_in ∨
    ((pfil_add_hook_order func arg name fl order ph env).1 = 0 ∧ fl &&& PFIL_IN ≠ 0 ∧
      (pfil_add_hook_order func arg name fl order ph env).2.ph_in =
        (pfil_list_add ph.ph_in ⟨func, arg, to_int32 env.random1, order % 256, name⟩
          (flags_clear fl PFIL_OUT) (order % 256)).2) := by
  unfold pfil_add_hook_order
  by_cases hin : fl &&& PFIL_IN ≠ 0
  · by_cases hm1 : fl &&& PFIL_WAITOK = 0 ∧ env.nowait1 = false
    · left; simp [hin, hm1]
    · by_cases hm2 : fl &&& PFIL_OUT ≠ 0 ∧ fl &&& PFIL_WAITOK = 0 ∧ env.nowait2 = false
      · left; simp [hin, hm1, hm2]
      · cases hd : ph.ph_in.any (same_ident func arg) with
        | true =>
          left
          have := pfil_list_add_dup ph.ph_in ⟨func, arg, to_int32 env.random1, order % 256, name⟩
            (flags_clear fl PFIL_OUT) (order % 256) hd
          simp [hin, hm1, hm2, this, EEXIST]
        | false =>
          have h1 := (pfil_list_add_shape ph.ph_in
            ⟨func, arg, to_int32 env.random1, order % 256, name⟩
            (flags_clear fl PFIL_OUT) (order % 256) hd).1
          have h2 := pfil_list_remove_add ph.ph_in
            ⟨func, arg, to_int32 env.random1, order % 256, name⟩
            (flags_clear fl PFIL_OUT) (order % 256) hd
          by_cases hout : fl &&& PFIL_OUT ≠ 0
          · have hm3 : ¬ (fl &&& PFIL_WAITOK = 0 ∧ env.nowait2 = false) := fun h => hm2 ⟨hout, h⟩
            cases hd2 : ph.ph_out.any (same_ident func arg) with
            | true =>
              left
              have := pfil_list_add_dup ph.ph_out
                ⟨func, arg, to_int32 env.random2, order % 256, name⟩
                (flags_clear fl PFIL_IN) (order % 256) hd2
              simp at h2
              simp [hin, hm1, hm3, hout, h1, h2, this, EEXIST]
            | false =>
              right
              have := (pfil_list_add_shape ph.ph_out
                ⟨func, arg, to_int32 env.random2, order % 256, name⟩
                (flags_clear fl PFIL_IN) (order % 256) hd2).1
              simp [hin, hm1, hm3, hout, h1, this]
          · right
            simp [hin, hm1, hm2, hout, h1]
  · left
    by_cases hm2 : fl &&& PFIL_OUT ≠ 0 ∧ fl &&& PFIL_WAITOK = 0 ∧ env.nowait2 = false
    · simp [hin, hm2]
    · by_cases hout : fl &&& PFIL_OUT ≠ 0
      · have hm3 : ¬ (fl &&& PFIL_WAITOK = 0 ∧ env.nowait2 = false) := fun h => hm2 ⟨hout, h⟩
        by_cases hr : (pfil_list_add ph.ph_out
            ⟨func, arg, to_int32 env.random2, order % 256, name⟩
            (flags_clear fl PFIL_IN) (order % 256)).1 = 0
        · simp [hin, hm3, hout, hr]
        · simp [hin, hm3, hout, hr]
      · simp [hin, hm2, hout]

/-- What `pfil_add_hook_order` does to the output list: nothing, or (only when it
returns 0 with `PFIL_OUT` set) the insertion by `pfil_list_add`. -/
theorem add_order_out (func arg : Nat) (name : String) (fl order : Nat) (ph : pfil_head)
    (env : pfil_env) :
    (pfil_add_hook_order func arg name fl order ph env).2.ph_out = ph.ph_out ∨
    ((pfil_add_hook_order func arg name fl order ph env).1 = 0 ∧ fl &&& PFIL_OUT ≠ 0 ∧
      (pfil_add_hook_order func arg name fl order ph env).2.ph_out =
        (pfil_list_add ph.ph_out ⟨func, arg, to_int32 env.random2, order % 256, name⟩
          (flags_clear fl PFIL_IN) (order % 256)).2) := by
  unfold pfil_add_hook_order
  by_cases hm1 : fl &&& PFIL_IN ≠ 0 ∧ fl &&& PFIL_WAITOK = 0 ∧ env.nowait1 = false
  · left; simp [hm1]
  · by_cases hm2 : fl &&& PFIL_OUT ≠ 0 ∧ fl &&& PFIL_WAITOK = 0 ∧ env.nowait2 = false
    · left; simp [hm1, hm2]
    · by_cases hout : fl &&& PFIL_OUT ≠ 0
      · have hm3 : ¬ (fl &&& PFIL_WAITOK = 0 ∧ env.nowait2 = false) := fun h => hm2 ⟨hout, h⟩
        by_cases hin : fl &&& PFIL_IN ≠ 0
        · have hm4 : ¬ (fl &&& PFIL_WAITOK = 0 ∧ env.nowait1 = false) := fun h => hm1 ⟨hin, h⟩
          by_cases hr1 : (pfil_list_add ph.ph_in
              ⟨func, arg, to_int32 env.random1, order % 256, name⟩
              (flags_clear fl PFIL_OUT) (order % 256)).1 = 0
          · by_cases hr : (pfil_list_add ph.ph_out
                ⟨func, arg, to_int32 env.random2, order % 256, name⟩
                (flags_clear fl PFIL_IN) (order % 256)).1 = 0
            · right; simp [hin, hout, hm3, hm4, hr1, hr]
            · left; simp [hin, hout, hm3, hm4, hr1, hr]
          · left; simp [hin, hout, hm3, hm4, hr1]
        · by_cases hr : (pfil_list_add ph.ph_out
              ⟨func, arg, to_int32 env.random2, order % 256, name⟩
              (flags_clear fl PFIL_IN) (order % 256)).1 = 0
          · right; simp [hin, hout, hm3, hr]
          · left; simp [hin, hout, hm3, hr]
      · left
        by_cases hin : fl &&& PFIL_IN ≠ 0
        · have hm4 : ¬ (fl &&& PFIL_WAITOK = 0 ∧ env.nowait1 = false) := fun h => hm1 ⟨hin, h⟩
          by_cases hr1 : (pfil_list_add ph.ph_in
              ⟨func, arg, to_int32 env.random1, order % 256, name⟩
              (flags_clear fl PFIL_OUT) (order % 256)).1 = 0
          · simp [hin, hout, hm4, hr1]
          · simp [hin, hout, hm4, hr1]
        · simp [hin, hout]

/-- A call of `pfil_add_hook_order` that returns 0 with `PFIL_IN` set found no hook
of that identity on the input list and inserted its hook there. -/
theorem add_order_in_ok (func arg : Nat) (name : String) (fl order : Nat) (ph : pfil_head)
    (env : pfil_env) (h0 : (pfil_add_hook_order func arg name fl order ph env).1 = 0)
    (hin : fl &&& PFIL_IN ≠ 0) :
    ph.ph_in.any (same_ident func arg) = false ∧
    (pfil_add_hook_order func arg name fl order ph env).2.ph_in =
      (pfil_list_add ph.ph_in ⟨func, arg, to_int32 env.random1, order % 256, name⟩
        (flags_clear fl PFIL_OUT) (order % 256)).2 := by
  cases hd : ph.ph_in.any (same_ident func arg) with
  | false =>
    refine ⟨rfl, ?_⟩
    rcases add_order_in func arg name fl order ph env with h | ⟨_, _, h⟩
    · exfalso
      revert h0 h
      unfold pfil_add_hook_order
      have h1 := (pfil_list_add_shape ph.ph_in
        ⟨func, arg, to_int32 env.random1, order % 256, name⟩
        (flags_clear fl PFIL_OUT) (order % 256) hd)
      obtain ⟨h1, pre, post, e1, e2, _, _⟩ := h1
      by_cases hm1 : fl &&& PFIL_WAITOK = 0 ∧ env.nowait1 = false
      · simp [hin, hm1, ENOMEM]
      · by_cases hm2 : fl &&& PFIL_OUT ≠ 0 ∧ fl &&& PFIL_WAITOK = 0 ∧ env.nowait2 = false
        · simp [hin, hm1, hm2, ENOMEM]
        · by_cases hout : fl &&& PFIL_OUT ≠ 0
          · have hm3 : ¬ (fl &&& PFIL_WAITOK = 0 ∧ env.nowait2 = false) :=
              fun h => hm2 ⟨hout, h⟩
            by_cases hr : (pfil_list_add ph.ph_out
                ⟨func, arg, to_int32 env.random2, order % 256, name⟩
                (flags_clear fl PFIL_IN) (order % 256)).1 = 0
            · simp only [hin, hm1, hm3, hout, h1, hr, ne_eq, not_true_eq_false,
                not_false_eq_true, if_true, if_false, and_false, and_self, true_and]
              intro _ h
              rw [e2, e1] at h
              have := congrArg List.length h
              simp at this
            · simp [hin, hm1, hm3, hout, h1, hr]
          · simp only [hin, hm1, hout, h1, ne_eq, not_true_eq_false,
              not_false_eq_true, if_true, if_false, and_false, and_self, true_and, false_and]
            intro _ h
            rw [e2, e1] at h
            have := congrArg List.length h
            simp at this
    · exact h
  | true =>
    exfalso
    revert h0
    unfold pfil_add_hook_order
    have := pfil_list_add_dup ph.ph_in ⟨func, arg, to_int32 env.random1, order % 256, name⟩
      (flags_clear fl PFIL_OUT) (order % 256) hd
    by_cases hm1 : fl &&& PFIL_WAITOK = 0 ∧ env.nowait1 = false
    · simp [hin, hm1, ENOMEM]
    · by_cases hm2 : fl &&& PFIL_OUT ≠ 0 ∧ fl &&& PFIL_WAITOK = 0 ∧ env.nowait2 = false
      · simp [hin, hm1, hm2, ENOMEM]
      · simp [hin, hm1, hm2, this, EEXIST]

/-- A call of `pfil_add_hook_order` that returns 0 with `PFIL_OUT` set found no hook
of that identity on the output list and inserted its hook there. -/
theorem add_order_out_ok (func arg : Nat) (name : String) (fl order : Nat) (ph : pfil_head)
    (env : pfil_env) (h0 : (pfil_add_hook_order func arg name fl order ph env).1 = 0)
    (hout : fl &&& PFIL_OUT ≠ 0) :
    ph.ph_out.any (same_ident func arg) = false ∧
    (pfil_add_hook_order func arg name fl order ph env).2.ph_out =
      (pfil_list_add ph.ph_out ⟨func, arg, to_int32 env.random2, order % 256, name⟩
        (flags_clear fl PFIL_IN) (order % 256)).2 := by
  have key : (pfil_list_add ph.ph_out ⟨func, arg, to_int32 env.random2, order % 256, name⟩
        (flags_clear fl PFIL_IN) (order % 256)).1 = 0 ∧
      (pfil_add_hook_order func arg name fl order ph env).2.ph_out =
      (pfil_list_add ph.ph_out ⟨func, arg, to_int32 env.random2, order % 256, name⟩
        (flags_clear fl PFIL_IN) (order % 256)).2 := by
    revert h0
    unfold pfil_add_hook_order
    by_cases hm1 : fl &&& PFIL_IN ≠ 0 ∧ fl &&& PFIL_WAITOK = 0 ∧ env.nowait1 = false
    · simp [hm1, ENOMEM]
    · by_cases hm3 : fl &&& PFIL_WAITOK = 0 ∧ env.nowait2 = false
      · simp [hm1, hm3, hout, ENOMEM]
      · by_cases hin : fl &&& PFIL_IN ≠ 0
        · have hm4 : ¬ (fl &&& PFIL_WAITOK = 0 ∧ env.nowait1 = false) := fun h => hm1 ⟨hin, h⟩
          by_cases hr1 : (pfil_list_add ph.ph_in
              ⟨func, arg, to_int32 env.random1, order % 256, name⟩
              (flags_clear fl PFIL_OUT) (order % 256)).1 = 0
          · by_cases hr : (pfil_list_add ph.ph_out
                ⟨func, arg, to_int32 env.random2, order % 256, name⟩
                (flags_clear fl PFIL_IN) (order % 256)).1 = 0
            · simp [hin, hout, hm3, hm4, hr1, hr]
            · simp [hin, hout, hm3, hm4, hr1, hr]
          · simp [hin, hout, hm3, hm4, hr1]
        · by_cases hr : (pfil_list_add ph.ph_out
              ⟨func, arg, to_int32 env.random2, order % 256, name⟩
              (flags_clear fl PFIL_IN) (order % 256)).1 = 0
          · simp [hin, hout, hm3, hr]
          · simp [hin, hout, hm3, hr]
  refine ⟨?_, key.2⟩
  cases hd : ph.ph_out.any (same_ident func arg) with
  | false => rfl
  | true =>
    have := (pfil_list_add_fst_ne_zero ph.ph_out
      ⟨func, arg, to_int32 env.random2, order % 256, name⟩
      (flags_clear fl PFIL_IN) (order % 256)).mpr hd
    exact absurd key.1 this

/-- What `pfil_remove_hook` does to the input list: nothing, or (only with
`PFIL_IN` set) the removal by `pfil_list_remove`. -/
theorem remove_hook_in (func arg fl : Nat) (ph : pfil_head) :
    (pfil_remove_hook func arg fl ph).2.ph_in = ph.ph_in ∨
    (fl &&& PFIL_IN ≠ 0 ∧
      (pfil_remove_hook func arg fl ph).2.ph_in = (pfil_list_remove ph.ph_in func arg).2) := by
  unfold pfil_remove_hook
  by_cases hin : fl &&& PFIL_IN ≠ 0
  · by_cases hr1 : (pfil_list_remove ph.ph_in func arg).1 = 0
    · right
      refine ⟨hin, ?_⟩
      by_cases hout : fl &&& PFIL_OUT ≠ 0
      · by_cases hr : (pfil_list_remove ph.ph_out func arg).1 = 0
        · simp [hin, hout, hr1, hr]
        · simp [hin, hout, hr1, hr]
      · simp [hin, hout, hr1]
    · left; simp [hin, hr1]
  · left
    by_cases hout : fl &&& PFIL_OUT ≠ 0
    · by_cases hr : (pfil_list_remove ph.ph_out func arg).1 = 0
      · simp [hin, hout, hr]
      · simp [hin, hout, hr]
    · simp [hin, hout]

/-- What `pfil_remove_hook` does to the output list: nothing, or (only with
`PFIL_OUT` set) the removal by `pfil_list_remove`. -/
theorem remove_hook_out (func arg fl : Nat) (ph : pfil_head) :
    (pfil_remove_hook func arg fl ph).2.ph_out = ph.ph_out ∨
    (fl &&& PFIL_OUT ≠ 0 ∧
      (pfil_remove_hook func arg fl ph).2.ph_out = (pfil_list_remove ph.ph_out func arg).2) := by
  unfold pfil_remove_hook
  by_cases hout : fl &&& PFIL_OUT ≠ 0
  · by_cases hin : fl &&& PFIL_IN ≠ 0
    · by_cases hr1 : (pfil_list_remove ph.ph_in func arg).1 = 0
      · by_cases hr : (pfil_list_remove ph.ph_out func arg).1 = 0
        · right; simp [hin, hout, hr1, hr]
        · left; simp [hin, hout, hr1, hr]
      · left; simp [hin, hr1]
    · by_cases hr : (pfil_list_remove ph.ph_out func arg).1 = 0
      · right; simp [hin, hout, hr]
      · left; simp [hin, hout, hr]
  · left
    by_cases hin : fl &&& PFIL_IN ≠ 0
    · by_cases hr1 : (pfil_list_remove ph.ph_in func arg).1 = 0
      · simp [hin, hout, hr1]
      · simp [hin, hout, hr1]
    · simp [hin, hout]

theorem pfil_list_remove_eq_or (list : pfil_list_t) (func arg : Nat) :
    (pfil_list_remove list func arg).2 = list ∨
    ∃ pre x post, list = pre ++ x :: post ∧ (x.pfil_func = func ∧ x.pfil_arg = arg) ∧
      (pfil_list_remove list func arg).2 = pre ++ post := by
  by_cases h : ∃ pfh ∈ list, pfh.pfil_func = func ∧ pfh.pfil_arg = arg
  · obtain ⟨pre, x, post, e1, e2, e3⟩ := split_first_ident list func arg h
    right
    refine ⟨pre, x, post, e1, e2, ?_⟩
    rw [e1, pfil_list_remove_first pre x post func arg e2 e3]
  · left
    rw [pfil_list_remove_absent list func arg (fun e he hp => h ⟨e, he, hp⟩)]

/-! ## Administrative calls: one call seen from one side -/

/-- A `pfil_add_hook_order` that returns 0 with the flag of a side set placed its
hook at one position of that side: the identity was not there before, and on the
input side no hook before it, on the output side no hook after it, passes the
order comparison of the walk. -/
theorem add_order_side_ok (input : Bool) (func arg : Nat) (name : String) (fl order : Nat)
    (ph : pfil_head) (env : pfil_env)
    (h0 : (pfil_add_hook_order func arg name fl order ph env).1 = 0)
    (hfl : fl &&& side_flag input ≠ 0) :
    ∃ pre post x, ph_side input ph = pre ++ post ∧
      ph_side input (pfil_add_hook_order func arg name fl order ph env).2 = pre ++ x :: post ∧
      x.pfil_func = func ∧ x.pfil_arg = arg ∧ x.pfil_order = order % 256 ∧
      (∀ e ∈ ph_side input ph, ¬ (e.pfil_func = func ∧ e.pfil_arg = arg)) ∧
      (input = true → ∀ e ∈ pre, ¬ e.pfil_order ≤ order % 256) ∧
      (input = false → ∀ e ∈ post, ¬ order % 256 ≤ e.pfil_order) := by
  cases input with
  | true =>
    have hin : fl &&& PFIL_IN ≠ 0 := hfl
    obtain ⟨hd, he⟩ := add_order_in_ok func arg name fl order ph env h0 hin
    obtain ⟨_, pre, post, e1, e2, e3, _⟩ := pfil_list_add_shape ph.ph_in
      ⟨func, arg, to_int32 env.random1, order % 256, name⟩
      (flags_clear fl PFIL_OUT) (order % 256) hd
    refine ⟨pre, post, ⟨func, arg, to_int32 env.random1, order % 256, name⟩, e1, ?_, rfl, rfl,
      rfl, ?_, ?_, ?_⟩
    · show (pfil_add_hook_order func arg name fl order ph env).2.ph_in = _
      rw [he, e2]
    · intro e hm hp
      have := (any_same_ident_iff func arg ph.ph_in).mpr ⟨e, hm, hp⟩
      rw [hd] at this
      cases this
    · intro _
      apply e3
      rw [flags_clear_out_in]
      exact hin
    · intro h; cases h
  | false =>
    have hout : fl &&& PFIL_OUT ≠ 0 := hfl
    obtain ⟨hd, he⟩ := add_order_out_ok func arg name fl order ph env h0 hout
    obtain ⟨_, pre, post, e1, e2, _, e4⟩ := pfil_list_add_shape ph.ph_out
      ⟨func, arg, to_int32 env.random2, order % 256, name⟩
      (flags_clear fl PFIL_IN) (order % 256) hd
    refine ⟨pre, post, ⟨func, arg, to_int32 env.random2, order % 256, name⟩, e1, ?_, rfl, rfl,
      rfl, ?_, ?_, ?_⟩
    · show (pfil_add_hook_order func arg name fl order ph env).2.ph_out = _
      rw [he, e2]
    · intro e hm hp
      have := (any_same_ident_iff func arg ph.ph_out).mpr ⟨e, hm, hp⟩
      rw [hd] at this
      cases this
    · intro h; cases h
    · intro _
      exact e4 (flags_clear_in_in fl)

/-- A `pfil_add_hook_order` leaves a side as it was unless it returns 0 with the
flag of that side set. -/
theorem add_order_side (input : Bool) (func arg : Nat) (name : String) (fl order : Nat)
    (ph : pfil_head) (env : pfil_env) :
    ph_side input (pfil_add_hook_order func arg name fl order ph env).2 = ph_side input ph ∨
    ((pfil_add_hook_order func arg name fl order ph env).1 = 0 ∧ fl &&& side_flag input ≠ 0) := by
  cases input with
  | true =>
    rcases add_order_in func arg name fl order ph env with h | ⟨h1, h2, _⟩
    · exact Or.inl h
    · exact Or.inr ⟨h1, h2⟩
  | false =>
    rcases add_order_out func arg name fl order ph env with h | ⟨h1, h2, _⟩
    · exact Or.inl h
    · exact Or.inr ⟨h1, h2⟩

/-- A `pfil_remove_hook` leaves a side as it was, or (only with the flag of that
side set) deletes one hook of the named identity from it. -/
theorem remove_side (input : Bool) (func arg fl : Nat) (ph : pfil_head) :
    ph_side input (pfil_remove_hook func arg fl ph).2 = ph_side input ph ∨
    (fl &&& side_flag input ≠ 0 ∧
      ∃ pre x post, ph_side input ph = pre ++ x :: post ∧
        (x.pfil_func = func ∧ x.pfil_arg = arg) ∧
        ph_side input (pfil_remove_hook func arg fl ph).2 = pre ++ post) := by
  cases input with
  | true =>
    rcases remove_hook_in func arg fl ph with h | ⟨h1, h2⟩
    · exact Or.inl h
    · rcases pfil_list_remove_eq_or ph.ph_in func arg with h3 | ⟨pre, x, post, e1, e2, e3⟩
      · exact Or.inl (h2.trans h3)
      · exact Or.inr ⟨h1, pre, x, post, e1, e2, h2.trans e3⟩
  | false =>
    rcases remove_hook_out func arg fl ph with h | ⟨h1, h2⟩
    · exact Or.inl h
    · rcases pfil_list_remove_eq_or ph.ph_out func arg with h3 | ⟨pre, x, post, e1, e2, e3⟩
      · exact Or.inl (h2.trans h3)
      · exact Or.inr ⟨h1, pre, x, post, e1, e2, h2.trans e3⟩

/-- One administrative call changes a side in one of three ways: not at all, by
inserting one hook whose identity was absent, or by deleting one hook of the
identity named by a remove call for that side. -/
theorem apply_side (input : Bool) (ph : pfil_head) (op : pfil_op) :
    ph_side input (pfil_apply ph op).2 = ph_side input ph ∨
    (∃ pre post x, ph_side input ph = pre ++ post ∧
      ph_side input (pfil_apply ph op).2 = pre ++ x :: post ∧
      ∀ e ∈ ph_side input ph, ¬ (e.pfil_func = x.pfil_func ∧ e.pfil_arg = x.pfil_arg)) ∨
    (∃ pre x post, ph_side input ph = pre ++ x :: post ∧
      ph_side input (pfil_apply ph op).2 = pre ++ post ∧
      op_removes input x.pfil_func x.pfil_arg op) := by
  cases op with
  | add_order func arg name fl order env =>
    rcases add_order_side input func arg name fl order ph env with h | ⟨h0, hfl⟩
    · exact Or.inl h
    · obtain ⟨pre, post, x, e1, e2, e3, e4, _, e6, _, _⟩ :=
        add_order_side_ok input func arg name fl order ph env h0 hfl
      refine Or.inr (Or.inl ⟨pre, post, x, e1, e2, ?_⟩)
      rw [e3, e4]
      exact e6
  | add func arg fl env =>
    rcases add_order_side input func arg "unknown" fl PFIL_ORDER_DEFAULT ph env with h | ⟨h0, hfl⟩
    · exact Or.inl h
    · obtain ⟨pre, post, x, e1, e2, e3, e4, _, e6, _, _⟩ :=
        add_order_side_ok input func arg "unknown" fl PFIL_ORDER_DEFAULT ph env h0 hfl
      refine Or.inr (Or.inl ⟨pre, post, x, e1, e2, ?_⟩)
      rw [e3, e4]
      exact e6
  | remove func arg fl =>
    rcases remove_side input func arg fl ph with h | ⟨hfl, pre, x, post, e1, e2, e3⟩
    · exact Or.inl h
    · exact Or.inr (Or.inr ⟨pre, x, post, e1, e3, e2.1.symm, e2.2.symm, hfl⟩)

/-! ## Invariants along sequences of administrative calls -/

theorem ident_unique_insert (pre post : pfil_list_t) (x : packet_filter_hook)
    (hu : ident_unique (pre ++ post))
    (hx : ∀ e ∈ pre ++ post, ¬ (e.pfil_func = x.pfil_func ∧ e.pfil_arg = x.pfil_arg)) :
    ident_unique (pre ++ x :: post) := by
  unfold ident_unique at hu ⊢
  rw [List.pairwise_append] at hu ⊢
  obtain ⟨h1, h2, h3⟩ := hu
  refine ⟨h1, ?_, ?_⟩
  · rw [List.pairwise_cons]
    refine ⟨?_, h2⟩
    intro b hb hp
    exact hx b (List.mem_append_right _ hb) ⟨hp.1.symm, hp.2.symm⟩
  · intro a ha b hb
    rcases List.mem_cons.mp hb with rfl | hb
    · exact hx a (List.mem_append_left _ ha)
    · exact h3 a ha b hb

theorem apply_ident_unique (input : Bool) (ph : pfil_head) (op : pfil_op)
    (hu : ident_unique (ph_side input ph)) :
    ident_unique (ph_side input (pfil_apply ph op).2) := by
  rcases apply_side input ph op with h | ⟨pre, post, x, e1, e2, e3⟩ | ⟨pre, x, post, e1, e2, _⟩
  · rw [h]; exact hu
  · rw [e2]
    rw [e1] at hu e3
    exact ident_unique_insert pre post x hu e3
  · rw [e2]
    rw [e1] at hu
    exact List.Pairwise.sublist
      (List.Sublist.append (List.Sublist.refl pre) (List.sublist_cons_self x post)) hu

theorem run_ops_ident_unique (input : Bool) (ops : List pfil_op) :
    ∀ ph : pfil_head, ident_unique (ph_side input ph) →
      ident_unique (ph_side input (pfil_run_ops ops ph)) := by
  induction ops with
  | nil => intro ph h; exact h
  | cons op rest ih =>
    intro ph h
    exact ih _ (apply_ident_unique input ph op h)

theorem run_ops_append (ops1 ops2 : List pfil_op) :
    ∀ ph : pfil_head, pfil_run_ops (ops1 ++ ops2) ph = pfil_run_ops ops2 (pfil_run_ops ops1 ph) := by
  induction ops1 with
  | nil => intro ph; rfl
  | cons op rest ih => intro ph; exact ih _

theorem apply_has_hook (input : Bool) (f a o : Nat) (ph : pfil_head) (op : pfil_op)
    (hop : ¬ op_removes input f a op) (hh : has_hook f a o (ph_side input ph)) :
    has_hook f a o (ph_side input (pfil_apply ph op).2) := by
  obtain ⟨y, hy, hyf, hya, hyo⟩ := hh
  rcases apply_side input ph op with h | ⟨pre, post, x, e1, e2, _⟩ | ⟨pre, x, post, e1, e2, e3⟩
  · rw [h]; exact ⟨y, hy, hyf, hya, hyo⟩
  · rw [e2]
    rw [e1] at hy
    refine ⟨y, ?_, hyf, hya, hyo⟩
    rcases List.mem_append.mp hy with h | h
    · exact List.mem_append_left _ h
    · exact List.mem_append_right _ (List.mem_cons_of_mem _ h)
  · rw [e2]
    rw [e1] at hy
    refine ⟨y, ?_, hyf, hya, hyo⟩
    rcases List.mem_append.mp hy with h | h
    · exact List.mem_append_left _ h
    · rcases List.mem_cons.mp h with rfl | h
      · rw [hyf, hya] at e3
        exact absurd e3 hop
      · exact List.mem_append_right _ h

theorem run_ops_has_hook (input : Bool) (f a o : Nat) (ops : List pfil_op) :
    ∀ ph : pfil_head, (∀ op ∈ ops, ¬ op_removes input f a op) →
      has_hook f a o (ph_side input ph) →
      has_hook f a o (ph_side input (pfil_run_ops ops ph)) := by
  induction ops with
  | nil => intro ph _ h; exact h
  | cons op rest ih =>
    intro ph hops h
    exact ih _ (fun op2 h2 => hops op2 (List.mem_cons_of_mem _ h2))
      (apply_has_hook input f a o ph op (hops op (List.mem_cons_self _ _)) h)

theorem sublist_delete (s pre post : pfil_list_t) (z : packet_filter_hook)
    (hs : s.Sublist (pre ++ z :: post)) (hz : z ∉ s) : s.Sublist (pre ++ post) := by
  have h1 := List.Sublist.filter (fun e => decide (e ≠ z)) hs
  have h2 : s.filter (fun e => decide (e ≠ z)) = s := by
    rw [List.filter_eq_self]
    intro e he
    simp only [ne_eq, decide_eq_true_eq]
    rintro rfl
    exact hz he
  rw [h2] at h1
  have h3 : (pre ++ z :: post).filter (fun e => decide (e ≠ z)) =
      pre.filter (fun e => decide (e ≠ z)) ++ post.filter (fun e => decide (e ≠ z)) := by
    simp [List.filter_append, List.filter_cons]
  rw [h3] at h1
  exact h1.trans (List.Sublist.append (List.filter_sublist _) (List.filter_sublist _))

theorem apply_ident_precedes (input : Bool) (f1 a1 f2 a2 : Nat) (ph : pfil_head) (op : pfil_op)
    (hop1 : ¬ op_removes input f1 a1 op) (hop2 : ¬ op_removes input f2 a2 op)
    (hh : ident_precedes f1 a1 f2 a2 (ph_side input ph)) :
    ident_precedes f1 a1 f2 a2 (ph_side input (pfil_apply ph op).2) := by
  obtain ⟨u, v, hs, hu, hv⟩ := hh
  rcases apply_side input ph op with h | ⟨pre, post, x, e1, e2, _⟩ | ⟨pre, x, post, e1, e2, e3⟩
  · rw [h]; exact ⟨u, v, hs, hu, hv⟩
  · rw [e2]
    rw [e1] at hs
    exact ⟨u, v, hs.trans (List.Sublist.append (List.Sublist.refl pre)
      (List.sublist_cons_self x post)), hu, hv⟩
  · rw [e2]
    rw [e1] at hs
    refine ⟨u, v, sublist_delete _ pre post x hs ?_, hu, hv⟩
    intro hx
    rcases List.mem_cons.mp hx with rfl | hx
    · rw [hu.1, hu.2] at e3
      exact hop1 e3
    · rcases List.mem_cons.mp hx with rfl | hx
      · rw [hv.1, hv.2] at e3
        exact hop2 e3
      · cases hx

theorem run_ops_ident_precedes (input : Bool) (f1 a1 f2 a2 : Nat) (ops : List pfil_op) :
    ∀ ph : pfil_head, (∀ op ∈ ops, ¬ op_removes input f1 a1 op) →
      (∀ op ∈ ops, ¬ op_removes input f2 a2 op) →
      ident_precedes f1 a1 f2 a2 (ph_side input ph) →
      ident_precedes f1 a1 f2 a2 (ph_side input (pfil_run_ops ops ph)) := by
  induction ops with
  | nil => intro ph _ _ h; exact h
  | cons op rest ih =>
    intro ph hops1 hops2 h
    exact ih _ (fun op2 h2 => hops1 op2 (List.mem_cons_of_mem _ h2))
      (fun op2 h2 => hops2 op2 (List.mem_cons_of_mem _ h2))
      (apply_ident_precedes input f1 a1 f2 a2 ph op (hops1 op (List.mem_cons_self _ _))
        (hops2 op (List.mem_cons_self _ _)) h)

/-- Two successful adds of equal order on one side, the first hook staying on the
list until the second is added: afterwards the first hook is on the list and, on
the output side, stands before the second; on the input side, after it. -/
theorem add_order_second (input : Bool) (f1 a1 f2 a2 : Nat) (name : String) (fl order : Nat)
    (ph : pfil_head) (env : pfil_env)
    (hh : has_hook f1 a1 (order % 256) (ph_side input ph))
    (h0 : (pfil_add_hook_order f2 a2 name fl order ph env).1 = 0)
    (hfl : fl &&& side_flag input ≠ 0) :
    (input = false → ident_precedes f1 a1 f2 a2
      (ph_side input (pfil_add_hook_order f2 a2 name fl order ph env).2)) ∧
    (input = true → ident_precedes f2 a2 f1 a1
      (ph_side input (pfil_add_hook_order f2 a2 name fl order ph env).2)) := by
  obtain ⟨pre, post, x, e1, e2, e3, e4, _, _, e7, e8⟩ :=
    add_order_side_ok input f2 a2 name fl order ph env h0 hfl
  obtain ⟨y, hy, hyf, hya, hyo⟩ := hh
  rw [e1] at hy
  rw [e2]
  constructor
  · intro hi
    have hpre : y ∈ pre := by
      rcases List.mem_append.mp hy with h | h
      · exact h
      · exact absurd (le_of_eq hyo.symm) (e8 hi y h)
    refine ⟨y, x, ?_, ⟨hyf, hya⟩, ⟨e3, e4⟩⟩
    have h1 : [y].Sublist pre := List.singleton_sublist.mpr hpre
    have h2 : [x].Sublist (x :: post) := List.singleton_sublist.mpr (List.mem_cons_self _ _)
    exact List.Sublist.append h1 h2
  · intro hi
    have hpost : y ∈ post := by
      rcases List.mem_append.mp hy with h | h
      · exact absurd (le_of_eq hyo) (e7 hi y h)
      · exact h
    refine ⟨x, y, ?_, ⟨e3, e4⟩, ⟨hyf, hya⟩⟩
    have h1 : [].Sublist pre := List.nil_sublist pre
    have h2 : [x, y].Sublist (x :: post) :=
      List.Sublist.cons₂ x (List.singleton_sublist.mpr hpost)
    exact List.Sublist.append h1 h2

theorem add_order_has_hook (input : Bool) (func arg : Nat) (name : String) (fl order : Nat)
    (ph : pfil_head) (env : pfil_env)
    (h0 : (pfil_add_hook_order func arg name fl order ph env).1 = 0)
    (hfl : fl &&& side_flag input ≠ 0) :
    has_hook func arg (order % 256)
      (ph_side input (pfil_add_hook_order func arg name fl order ph env).2) := by
  obtain ⟨pre, post, x, _, e2, e3, e4, e5, _, _, _⟩ :=
    add_order_side_ok input func arg name fl order ph env h0 hfl
  rw [e2]
  exact ⟨x, List.mem_append_right _ (List.mem_cons_self _ _), e3, e4, e5⟩

/-- Stability on one side, from any head: the hook of the earlier successful add
stays until the end, the later successful add has the same order, and the later
hook is not removed afterwards. -/
theorem stability_side (input : Bool) (ph : pfil_head) (ops2 ops3 : List pfil_op)
    (f1 a1 : Nat) (n1 : String) (fl1 o1 : Nat) (env1 : pfil_env)
    (f2 a2 : Nat) (n2 : String) (fl2 o2 : Nat) (env2 : pfil_env)
    (hx : (pfil_apply ph (.add_order f1 a1 n1 fl1 o1 env1)).1 = 0)
    (hfl1 : fl1 &&& side_flag input ≠ 0)
    (hy : (pfil_apply (pfil_run_ops ops2 (pfil_apply ph (.add_order f1 a1 n1 fl1 o1 env1)).2)
      (.add_order f2 a2 n2 fl2 o2 env2)).1 = 0)
    (hfl2 : fl2 &&& side_flag input ≠ 0)
    (ho : o1 % 256 = o2 % 256)
    (hk2 : ∀ op ∈ ops2, ¬ op_removes input f1 a1 op)
    (hk3 : ∀ op ∈ ops3, ¬ op_removes input f1 a1 op)
    (hk4 : ∀ op ∈ ops3, ¬ op_removes input f2 a2 op) :
    (input = false → ident_precedes f1 a1 f2 a2 (ph_side input
      (pfil_run_ops (.add_order f1 a1 n1 fl1 o1 env1 :: ops2 ++
        .add_order f2 a2 n2 fl2 o2 env2 :: ops3) ph))) ∧
    (input = true → ident_precedes f2 a2 f1 a1 (ph_side input
      (pfil_run_ops (.add_order f1 a1 n1 fl1 o1 env1 :: ops2 ++
        .add_order f2 a2 n2 fl2 o2 env2 :: ops3) ph))) := by
  have e : pfil_run_ops (.add_order f1 a1 n1 fl1 o1 env1 :: ops2 ++
        .add_order f2 a2 n2 fl2 o2 env2 :: ops3) ph =
      pfil_run_ops ops3 (pfil_apply (pfil_run_ops ops2
        (pfil_apply ph (.add_order f1 a1 n1 fl1 o1 env1)).2)
        (.add_order f2 a2 n2 fl2 o2 env2)).2 := by
    rw [run_ops_append]
    rfl
  rw [e]
  have h1 : has_hook f1 a1 (o1 % 256)
      (ph_side input (pfil_apply ph (.add_order f1 a1 n1 fl1 o1 env1)).2) :=
    add_order_has_hook input f1 a1 n1 fl1 o1 ph env1 hx hfl1
  have h2 := run_ops_has_hook input f1 a1 (o1 % 256) ops2 _ hk2 h1
  rw [ho] at h2
  have h3 := add_order_second input f1 a1 f2 a2 n2 fl2 o2 _ env2 h2 hy hfl2
  constructor
  · intro hi
    exact run_ops_ident_precedes input f1 a1 f2 a2 ops3 _ hk3 hk4 (h3.1 hi)
  · intro hi
    exact run_ops_ident_precedes input f2 a2 f1 a1 ops3 _ hk4 hk3 (h3.2 hi)

/-- One successful `pfil_add_hook` on a side whose hooks all have the default
order: with the flag of the side set the new hook goes to the head of the input
list, to the tail of the output list; without it the side is unchanged. -/
theorem add_default_side (input : Bool) (func arg fl : Nat) (ph : pfil_head) (env : pfil_env)
    (hall : ∀ e ∈ ph_side input ph, e.pfil_order = PFIL_ORDER_DEFAULT % 256)
    (h0 : (pfil_add_hook func arg fl ph env).1 = 0) :
    (∀ e ∈ ph_side input (pfil_add_hook func arg fl ph env).2,
      e.pfil_order = PFIL_ORDER_DEFAULT % 256) ∧
    (fl &&& side_flag input = 0 →
      ph_side input (pfil_add_hook func arg fl ph env).2 = ph_side input ph) ∧
    (fl &&& side_flag input ≠ 0 → ∃ x, (x.pfil_func, x.pfil_arg) = (func, arg) ∧
      (input = true → ph_side input (pfil_add_hook func arg fl ph env).2
        = x :: ph_side input ph) ∧
      (input = false → ph_side input (pfil_add_hook func arg fl ph env).2
        = ph_side input ph ++ [x])) := by
  unfold pfil_add_hook at h0 ⊢
  by_cases hfl : fl &&& side_flag input = 0
  · have hsame : ph_side input
        (pfil_add_hook_order func arg "unknown" fl PFIL_ORDER_DEFAULT ph env).2
        = ph_side input ph := by
      rcases add_order_side input func arg "unknown" fl PFIL_ORDER_DEFAULT ph env with h | h
      · exact h
      · exact absurd hfl h.2
    refine ⟨?_, fun _ => hsame, fun h => absurd hfl h⟩
    rw [hsame]
    exact hall
  · obtain ⟨pre, post, x, e1, e2, e3, e4, e5, _, e7, e8⟩ :=
      add_order_side_ok input func arg "unknown" fl PFIL_ORDER_DEFAULT ph env h0 hfl
    refine ⟨?_, fun h => absurd h hfl, fun _ => ⟨x, by rw [e3, e4], ?_, ?_⟩⟩
    · rw [e2]
      intro e he
      rcases List.mem_append.mp he with h | h
      · exact hall e (by rw [e1]; exact List.mem_append_left _ h)
      · rcases List.mem_cons.mp h with rfl | h
        · exact e5
        · exact hall e (by rw [e1]; exact List.mem_append_right _ h)
    · intro hi
      have hpre : pre = [] := by
        apply List.eq_nil_iff_forall_not_mem.mpr
        intro e he
        have := hall e (by rw [e1]; exact List.mem_append_left _ he)
        exact e7 hi e he (le_of_eq this)
      rw [e2, e1, hpre]
      rfl
    · intro hi
      have hpost : post = [] := by
        apply List.eq_nil_iff_forall_not_mem.mpr
        intro e he
        have := hall e (by rw [e1]; exact List.mem_append_right _ he)
        exact e8 hi e he (le_of_eq this.symm)
      rw [e2, e1, hpost]
      simp

theorem run_default_side (input : Bool) (ops : List pfil_op) :
    ∀ ph : pfil_head, (∀ op ∈ ops, ∃ f a fl env, op = pfil_op.add f a fl env) →
      (∀ e ∈ ph_side input ph, e.pfil_order = PFIL_ORDER_DEFAULT % 256) →
      pfil_all_ok ops ph →
      (input = false → idents (ph_side input (pfil_run_ops ops ph)) =
        idents (ph_side input ph) ++ (ops.filter (op_adds_default input)).map op_ident) ∧
      (input = true → idents (ph_side input (pfil_run_ops ops ph)) =
        ((ops.filter (op_adds_default input)).map op_ident).reverse
          ++ idents (ph_side input ph)) := by
  induction ops with
  | nil => intro ph _ _ _; simp [pfil_run_ops]
  | cons op rest ih =>
    intro ph hops hall hok
    obtain ⟨f, a, fl, env, rfl⟩ := hops _ (List.mem_cons_self _ _)
    obtain ⟨h0, hrest⟩ := hok
    have h0q : (pfil_add_hook f a fl ph env).1 = 0 := h0
    obtain ⟨s1, s2, s3⟩ := add_default_side input f a fl ph env hall h0q
    have ihr := ih (pfil_apply ph (.add f a fl env)).2
      (fun op2 h2 => hops op2 (List.mem_cons_of_mem _ h2)) s1 hrest
    have erun : pfil_run_ops (pfil_op.add f a fl env :: rest) ph =
        pfil_run_ops rest (pfil_apply ph (.add f a fl env)).2 := rfl
    rw [erun]
    by_cases hfl : fl &&& side_flag input = 0
    · have hflt : op_adds_default input (.add f a fl env) = false := by
        simp [op_adds_default, hfl]
      have hs : ph_side input (pfil_apply ph (.add f a fl env)).2 = ph_side input ph := s2 hfl
      rw [List.filter_cons_of_neg (by simp [hflt])]
      rw [hs] at ihr
      exact ihr
    · have hflt : op_adds_default input (.add f a fl env) = true := by
        simp [op_adds_default, hfl]
      obtain ⟨x, hx, hx1, hx2⟩ := s3 hfl
      rw [List.filter_cons_of_pos hflt]
      constructor
      · intro hi
        have hs : ph_side input (pfil_apply ph (.add f a fl env)).2 = ph_side input ph ++ [x] :=
          hx2 hi
        rw [ihr.1 hi, hs]
        simp [idents, op_ident, hx]
      · intro hi
        have hs : ph_side input (pfil_apply ph (.add f a fl env)).2 = x :: ph_side input ph :=
          hx1 hi
        rw [ihr.2 hi, hs]
        simp [idents, op_ident, hx]

/-! ## Hook-list store: the claims on ordering, symmetry, stability, uniqueness -/

/-- C4: the input list is claimed to be sorted by non-increasing order. Evaluated
on scenario S1 (A with order 100, B with order 50, C with order 100 added with
`PFIL_IN` to a fresh head, every add returning 0), the code gives the input list
C, B, A with orders 100, 50, 100, which is not sorted by non-increasing order. -/
theorem C4_input_list_unsorted_on_S1 :
    pfil_all_ok (demo_adds PFIL_IN) (pfil_head_fresh demo_head0) ∧
    (pfil_run_ops (demo_adds PFIL_IN) (pfil_head_fresh demo_head0)).ph_in.map
      packet_filter_hook.pfil_name = ["C", "B", "A"] ∧
    (pfil_run_ops (demo_adds PFIL_IN) (pfil_head_fresh demo_head0)).ph_in.map
      packet_filter_hook.pfil_order = [100, 50, 100] ∧
    ¬ sorted_nonincreasing (pfil_run_ops (demo_adds PFIL_IN) (pfil_head_fresh demo_head0)).ph_in := by
  refine ⟨⟨rfl, rfl, rfl, trivial⟩, rfl, rfl, ?_⟩
  have e : (pfil_run_ops (demo_adds PFIL_IN) (pfil_head_fresh demo_head0)).ph_in =
      [⟨1, 30, 1001, 100, "C"⟩, ⟨1, 20, 1001, 50, "B"⟩, ⟨1, 10, 1001, 100, "A"⟩] := rfl
  rw [e]
  simp [sorted_nonincreasing]

/-- C5: the output list is claimed to be sorted by non-decreasing order.
Evaluated on scenario S2 (A with order 100, B with order 50, C with order 100
added with `PFIL_OUT` to a fresh head, every add returning 0), the code gives the
output list A, C, B with orders 100, 100, 50, which is not sorted by
non-decreasing order. -/
theorem C5_output_list_unsorted_on_S2 :
    pfil_all_ok (demo_adds PFIL_OUT) (pfil_head_fresh demo_head0) ∧
    (pfil_run_ops (demo_adds PFIL_OUT) (pfil_head_fresh demo_head0)).ph_out.map
      packet_filter_hook.pfil_name = ["A", "C", "B"] ∧
    (pfil_run_ops (demo_adds PFIL_OUT) (pfil_head_fresh demo_head0)).ph_out.map
      packet_filter_hook.pfil_order = [100, 100, 50] ∧
    ¬ sorted_nondecreasing
      (pfil_run_ops (demo_adds PFIL_OUT) (pfil_head_fresh demo_head0)).ph_out := by
  refine ⟨⟨rfl, rfl, rfl, trivial⟩, rfl, rfl, ?_⟩
  have e : (pfil_run_ops (demo_adds PFIL_OUT) (pfil_head_fresh demo_head0)).ph_out =
      [⟨1, 10, 1002, 100, "A"⟩, ⟨1, 30, 1002, 100, "C"⟩, ⟨1, 20, 1002, 50, "B"⟩] := rfl
  rw [e]
  simp [sorted_nondecreasing]

/-- C6: the input list is claimed to be the reverse of the output list when every
add uses `PFIL_IN | PFIL_OUT`. Evaluated on A with order 100, B with order 50, C
with order 100 added with both flags to a fresh head, every add returning 0, the
code gives the input list C, B, A and the output list A, C, B, whose reverse
B, C, A is not the input list. -/
theorem C6_input_not_reverse_of_output :
    pfil_all_ok (demo_adds PFIL_ALL) (pfil_head_fresh demo_head0) ∧
    idents (pfil_run_ops (demo_adds PFIL_ALL) (pfil_head_fresh demo_head0)).ph_in
      = [(1, 30), (1, 20), (1, 10)] ∧
    idents (pfil_run_ops (demo_adds PFIL_ALL) (pfil_head_fresh demo_head0)).ph_out
      = [(1, 10), (1, 30), (1, 20)] ∧
    idents (pfil_run_ops (demo_adds PFIL_ALL) (pfil_head_fresh demo_head0)).ph_in ≠
      (idents (pfil_run_ops (demo_adds PFIL_ALL) (pfil_head_fresh demo_head0)).ph_out).reverse := by
  refine ⟨⟨rfl, rfl, rfl, trivial⟩, rfl, rfl, ?_⟩
  have e1 : idents (pfil_run_ops (demo_adds PFIL_ALL) (pfil_head_fresh demo_head0)).ph_in
      = [(1, 30), (1, 20), (1, 10)] := rfl
  have e2 : idents (pfil_run_ops (demo_adds PFIL_ALL) (pfil_head_fresh demo_head0)).ph_out
      = [(1, 10), (1, 30), (1, 20)] := rfl
  rw [e1, e2]
  decide

/-- C7: stability within equal order. Take any sequence of administrative calls
on a freshly registered head in which an add of `(f1, a1)` returns 0, a later add
of `(f2, a2)` with the same order returns 0, and neither hook is removed from the
side in question afterwards. With `PFIL_OUT` set in both adds the earlier-added
hook stands before the later-added one on the output list; with `PFIL_IN` set in
both the later-added hook stands before the earlier-added one on the input list.
In particular, when every call is a `pfil_add_hook` that returns 0, the output
list holds the hooks added with `PFIL_OUT` in registration order and the input
list holds the hooks added with `PFIL_IN` in reverse registration order. -/
theorem C7_equal_order_stability :
    (∀ (ph0 : pfil_head) (ops1 ops2 ops3 : List pfil_op)
        (f1 a1 : Nat) (n1 : String) (fl1 o1 : Nat) (env1 : pfil_env)
        (f2 a2 : Nat) (n2 : String) (fl2 o2 : Nat) (env2 : pfil_env),
      (pfil_apply (pfil_run_ops ops1 (pfil_head_fresh ph0))
        (.add_order f1 a1 n1 fl1 o1 env1)).1 = 0 →
      fl1 &&& PFIL_OUT ≠ 0 →
      (pfil_apply (pfil_run_ops (ops1 ++ .add_order f1 a1 n1 fl1 o1 env1 :: ops2)
        (pfil_head_fresh ph0)) (.add_order f2 a2 n2 fl2 o2 env2)).1 = 0 →
      fl2 &&& PFIL_OUT ≠ 0 →
      o1 % 256 = o2 % 256 →
      (∀ op ∈ ops2 ++ ops3, ¬ op_removes false f1 a1 op) →
      (∀ op ∈ ops3, ¬ op_removes false f2 a2 op) →
      ident_precedes f1 a1 f2 a2
        (pfil_run_ops (ops1 ++ .add_order f1 a1 n1 fl1 o1 env1 :: ops2 ++
          .add_order f2 a2 n2 fl2 o2 env2 :: ops3) (pfil_head_fresh ph0)).ph_out) ∧
    (∀ (ph0 : pfil_head) (ops1 ops2 ops3 : List pfil_op)
        (f1 a1 : Nat) (n1 : String) (fl1 o1 : Nat) (env1 : pfil_env)
        (f2 a2 : Nat) (n2 : String) (fl2 o2 : Nat) (env2 : pfil_env),
      (pfil_apply (pfil_run_ops ops1 (pfil_head_fresh ph0))
        (.add_order f1 a1 n1 fl1 o1 env1)).1 = 0 →
      fl1 &&& PFIL_IN ≠ 0 →
      (pfil_apply (pfil_run_ops (ops1 ++ .add_order f1 a1 n1 fl1 o1 env1 :: ops2)
        (pfil_head_fresh ph0)) (.add_order f2 a2 n2 fl2 o2 env2)).1 = 0 →
      fl2 &&& PFIL_IN ≠ 0 →
      o1 % 256 = o2 % 256 →
      (∀ op ∈ ops2 ++ ops3, ¬ op_removes true f1 a1 op) →
      (∀ op ∈ ops3, ¬ op_removes true f2 a2 op) →
      ident_precedes f2 a2 f1 a1
        (pfil_run_ops (ops1 ++ .add_order f1 a1 n1 fl1 o1 env1 :: ops2 ++
          .add_order f2 a2 n2 fl2 o2 env2 :: ops3) (pfil_head_fresh ph0)).ph_in) ∧
    (∀ (ph0 : pfil_head) (ops : List pfil_op),
      (∀ op ∈ ops, ∃ f a fl env, op = pfil_op.add f a fl env) →
      pfil_all_ok ops (pfil_head_fresh ph0) →
      idents (pfil_run_ops ops (pfil_head_fresh ph0)).ph_out =
        (ops.filter (op_adds_default false)).map op_ident ∧
      idents (pfil_run_ops ops (pfil_head_fresh ph0)).ph_in =
        ((ops.filter (op_adds_default true)).map op_ident).reverse) := by
  refine ⟨?_, ?_, ?_⟩
  · intro ph0 ops1 ops2 ops3 f1 a1 n1 fl1 o1 env1 f2 a2 n2 fl2 o2 env2 hx hfl1 hy hfl2 ho hk hk4
    have e : pfil_run_ops (ops1 ++ .add_order f1 a1 n1 fl1 o1 env1 :: ops2 ++
          .add_order f2 a2 n2 fl2 o2 env2 :: ops3) (pfil_head_fresh ph0) =
        pfil_run_ops (.add_order f1 a1 n1 fl1 o1 env1 :: ops2 ++
          .add_order f2 a2 n2 fl2 o2 env2 :: ops3)
          (pfil_run_ops ops1 (pfil_head_fresh ph0)) := by
      rw [List.append_assoc, run_ops_append]
    rw [e]
    rw [run_ops_append] at hy
    exact (stability_side false (pfil_run_ops ops1 (pfil_head_fresh ph0)) ops2 ops3
      f1 a1 n1 fl1 o1 env1 f2 a2 n2 fl2 o2 env2 hx hfl1 hy hfl2 ho
      (fun op h => hk op (List.mem_append_left _ h))
      (fun op h => hk op (List.mem_append_right _ h)) hk4).1 rfl
  · intro ph0 ops1 ops2 ops3 f1 a1 n1 fl1 o1 env1 f2 a2 n2 fl2 o2 env2 hx hfl1 hy hfl2 ho hk hk4
    have e : pfil_run_ops (ops1 ++ .add_order f1 a1 n1 fl1 o1 env1 :: ops2 ++
          .add_order f2 a2 n2 fl2 o2 env2 :: ops3) (pfil_head_fresh ph0) =
        pfil_run_ops (.add_order f1 a1 n1 fl1 o1 env1 :: ops2 ++
          .add_order f2 a2 n2 fl2 o2 env2 :: ops3)
          (pfil_run_ops ops1 (pfil_head_fresh ph0)) := by
      rw [List.append_assoc, run_ops_append]
    rw [e]
    rw [run_ops_append] at hy
    exact (stability_side true (pfil_run_ops ops1 (pfil_head_fresh ph0)) ops2 ops3
      f1 a1 n1 fl1 o1 env1 f2 a2 n2 fl2 o2 env2 hx hfl1 hy hfl2 ho
      (fun op h => hk op (List.mem_append_left _ h))
      (fun op h => hk op (List.mem_append_right _ h)) hk4).2 rfl
  · intro ph0 ops hops hok
    have hout := (run_default_side false ops (pfil_head_fresh ph0) hops
      (by intro e he; cases he) hok).1 rfl
    have hin := (run_default_side true ops (pfil_head_fresh ph0) hops
      (by intro e he; cases he) hok).2 rfl
    constructor
    · have e : idents (ph_side false (pfil_head_fresh ph0)) = [] := rfl
      rw [e, List.nil_append] at hout
      exact hout
    · have e : idents (ph_side true (pfil_head_fresh ph0)) = [] := rfl
      rw [e, List.append_nil] at hin
      exact hin

/-- Instance of C7: A (order 100), B (order 50), C (order 100) added with both
flags to a fresh head: A stands before C on the output list and C before A on the
input list. With `pfil_add_hook` for A (both sides), B (output side) and C (both
sides) the output list is A, B, C and the input list is C, A. -/
theorem C7_equal_order_stability_witness :
    ident_precedes 1 10 1 30
      (pfil_run_ops (demo_adds PFIL_ALL) (pfil_head_fresh demo_head0)).ph_out ∧
    ident_precedes 1 30 1 10
      (pfil_run_ops (demo_adds PFIL_ALL) (pfil_head_fresh demo_head0)).ph_in ∧
    idents (pfil_run_ops demo_default_adds (pfil_head_fresh demo_head0)).ph_out
      = [(1, 10), (1, 20), (1, 30)] ∧
    idents (pfil_run_ops demo_default_adds (pfil_head_fresh demo_head0)).ph_in
      = [(1, 30), (1, 10)] := by
  have h1 := C7_equal_order_stability.1 demo_head0 [] [.add_order 1 20 "B" PFIL_ALL 50 demo_env] []
    1 10 "A" PFIL_ALL 100 demo_env 1 30 "C" PFIL_ALL 100 demo_env rfl (by decide) rfl (by decide)
    rfl (by simp [op_removes]) (by simp)
  have h2 := C7_equal_order_stability.2.1 demo_head0 []
    [.add_order 1 20 "B" PFIL_ALL 50 demo_env] []
    1 10 "A" PFIL_ALL 100 demo_env 1 30 "C" PFIL_ALL 100 demo_env rfl (by decide) rfl (by decide)
    rfl (by simp [op_removes]) (by simp)
  have h3 := C7_equal_order_stability.2.2 demo_head0 demo_default_adds
    (by simp [demo_default_adds]) ⟨rfl, rfl, rfl, trivial⟩
  exact ⟨h1, h2, h3.1, h3.2⟩

/-- C9: identity uniqueness. After any sequence of `pfil_add_hook_order`,
`pfil_add_hook` and `pfil_remove_hook` calls on a freshly registered head, whatever
their flags and whether they succeed or fail, neither the input list nor the
output list holds two hooks with the same `(pfil_func, pfil_arg)` pair. -/
theorem C9_identity_unique (ph0 : pfil_head) (ops : List pfil_op) :
    ident_unique (pfil_run_ops ops (pfil_head_fresh ph0)).ph_in ∧
    ident_unique (pfil_run_ops ops (pfil_head_fresh ph0)).ph_out :=
  ⟨run_ops_ident_unique true ops (pfil_head_fresh ph0) List.Pairwise.nil,
   run_ops_ident_unique false ops (pfil_head_fresh ph0) List.Pairwise.nil⟩

/-- Instance of C8: adding a hook with the identity of B to the list A, B, C
returns `EEXIST` and leaves the list as it was; adding it to the list A, C returns 0
and gives a list of three hooks. -/
theorem C8_list_add_eexist_iff_duplicate_witness :
    ((pfil_list_add [demo_A, demo_B, demo_C] demo_B PFIL_IN 128).1 = EEXIST ∧
      (pfil_list_add [demo_A, demo_B, demo_C] demo_B PFIL_IN 128).2
        = [demo_A, demo_B, demo_C]) ∧
    ((pfil_list_add [demo_A, demo_C] demo_B PFIL_IN 128).1 = 0 ∧
      (pfil_list_add [demo_A, demo_C] demo_B PFIL_IN 128).2.length = 2 + 1) := by
  have h1 := C8_list_add_eexist_iff_duplicate [demo_A, demo_B, demo_C] demo_B PFIL_IN 128
  have h2 := C8_list_add_eexist_iff_duplicate [demo_A, demo_C] demo_B PFIL_IN 128
  have hd : ∃ pfh ∈ [demo_A, demo_B, demo_C],
      pfh.pfil_func = demo_B.pfil_func ∧ pfh.pfil_arg = demo_B.pfil_arg :=
    ⟨demo_B, by simp, rfl, rfl⟩
  have hn : ¬ ∃ pfh ∈ [demo_A, demo_C],
      pfh.pfil_func = demo_B.pfil_func ∧ pfh.pfil_arg = demo_B.pfil_arg := by
    simp [demo_A, demo_B, demo_C]
  exact ⟨⟨h1.1.mpr hd, h1.2.1 hd⟩, ⟨(h2.2.2 hn).1, (h2.2.2 hn).2.1⟩⟩

/-- Instance of C10: removing the identity of B from A, B, C returns 0; removing
it from A, C returns `ENOENT` and leaves the list as it was. -/
theorem C10_list_remove_first_match_witness :
    (pfil_list_remove [demo_A, demo_B, demo_C] 1 20).1 = 0 ∧
    ((pfil_list_remove [demo_A, demo_C] 1 20).1 = ENOENT ∧
      (pfil_list_remove [demo_A, demo_C] 1 20).2 = [demo_A, demo_C]) := by
  have h1 := (C10_list_remove_first_match [demo_A, demo_B, demo_C] 1 20).1
    ⟨demo_B, by simp, rfl, rfl⟩
  have h2 := (C10_list_remove_first_match [demo_A, demo_C] 1 20).2
    (by simp [demo_A, demo_C])
  exact ⟨h1.1, h2⟩

end Pfil

namespace Pfil

/-! ## Administrative calls: the whole head after a call -/

/-- The head after a `pfil_add_hook_order` that returns 0: each side named by the
flags received its hook through `pfil_list_add` and the count grew by one per
side. -/
theorem add_order_ok_head (func arg : Nat) (name : String) (fl order : Nat) (ph : pfil_head)
    (env : pfil_env) (h0 : (pfil_add_hook_order func arg name fl order ph env).1 = 0) :
    (pfil_add_hook_order func arg name fl order ph env).2 =
      ⟨ph.ph_type, ph.ph_val,
        ph.ph_nhooks + (if fl &&& PFIL_IN ≠ 0 then 1 else 0)
          + (if fl &&& PFIL_OUT ≠ 0 then 1 else 0),
        if fl &&& PFIL_IN ≠ 0 then
          (pfil_list_add ph.ph_in ⟨func, arg, to_int32 env.random1, order % 256, name⟩
            (flags_clear fl PFIL_OUT) (order % 256)).2
        else ph.ph_in,
        if fl &&& PFIL_OUT ≠ 0 then
          (pfil_list_add ph.ph_out ⟨func, arg, to_int32 env.random2, order % 256, name⟩
            (flags_clear fl PFIL_IN) (order % 256)).2
        else ph.ph_out⟩ := by
  revert h0
  unfold pfil_add_hook_order
  by_cases hm1 : fl &&& PFIL_IN ≠ 0 ∧ fl &&& PFIL_WAITOK = 0 ∧ env.nowait1 = false
  · simp [hm1, ENOMEM]
  · by_cases hm2 : fl &&& PFIL_OUT ≠ 0 ∧ fl &&& PFIL_WAITOK = 0 ∧ env.nowait2 = false
    · simp [hm1, hm2, ENOMEM]
    · by_cases hin : fl &&& PFIL_IN ≠ 0
      · have hm4 : ¬ (fl &&& PFIL_WAITOK = 0 ∧ env.nowait1 = false) := fun h => hm1 ⟨hin, h⟩
        by_cases hr1 : (pfil_list_add ph.ph_in
            ⟨func, arg, to_int32 env.random1, order % 256, name⟩
            (flags_clear fl PFIL_OUT) (order % 256)).1 = 0
        · by_cases hout : fl &&& PFIL_OUT ≠ 0
          · have hm3 : ¬ (fl &&& PFIL_WAITOK = 0 ∧ env.nowait2 = false) :=
              fun h => hm2 ⟨hout, h⟩
            by_cases hr : (pfil_list_add ph.ph_out
                ⟨func, arg, to_int32 env.random2, order % 256, name⟩
                (flags_clear fl PFIL_IN) (order % 256)).1 = 0
            · simp [hin, hout, hm3, hm4, hr1, hr]
            · simp [hin, hout, hm3, hm4, hr1, hr]
          · simp [hin, hout, hm4, hr1]
        · simp [hin, hm4, hm2, hr1]
      · by_cases hout : fl &&& PFIL_OUT ≠ 0
        · have hm3 : ¬ (fl &&& PFIL_WAITOK = 0 ∧ env.nowait2 = false) :=
            fun h => hm2 ⟨hout, h⟩
          by_cases hr : (pfil_list_add ph.ph_out
              ⟨func, arg, to_int32 env.random2, order % 256, name⟩
              (flags_clear fl PFIL_IN) (order % 256)).1 = 0
          · simp [hin, hout, hm3, hr]
          · simp [hin, hout, hm3, hr]
        · simp [hin, hout]

/-- A `pfil_remove_hook` whose flags name neither side returns 0 and leaves the
head as it was. -/
theorem remove_hook_no_side (func arg fl : Nat) (ph : pfil_head)
    (hin : fl &&& PFIL_IN = 0) (hout : fl &&& PFIL_OUT = 0) :
    pfil_remove_hook func arg fl ph = (0, ph) := by
  simp [pfil_remove_hook, hin, hout]

/-- A `pfil_add_hook_order` whose flags name neither side returns 0 and leaves the
head as it was. -/
theorem add_order_no_side (func arg : Nat) (name : String) (fl order : Nat) (ph : pfil_head)
    (env : pfil_env) (hin : fl &&& PFIL_IN = 0) (hout : fl &&& PFIL_OUT = 0) :
    pfil_add_hook_order func arg name fl order ph env = (0, ph) := by
  simp [pfil_add_hook_order, hin, hout]

/-! ## Administrative calls: the claims on round trip, count, rollback and flags -/

/-- C11: add/remove round trip. For every head, identity, order and flags (in
particular `PFIL_IN`, `PFIL_OUT` and `PFIL_IN | PFIL_OUT`) for which
`pfil_add_hook_order` returns 0, a following `pfil_remove_hook` with the same
function, argument and flags returns 0 and leaves the head, that is `ph_in`,
`ph_out` and `ph_nhooks`, as it was before the add. -/
theorem C11_add_remove_round_trip (func arg : Nat) (name : String) (fl order : Nat)
    (ph : pfil_head) (env : pfil_env)
    (h0 : (pfil_add_hook_order func arg name fl order ph env).1 = 0) :
    pfil_remove_hook func arg fl (pfil_add_hook_order func arg name fl order ph env).2
      = (0, ph) := by
  rw [add_order_ok_head func arg name fl order ph env h0]
  by_cases hin : fl &&& PFIL_IN ≠ 0
  · have ri : pfil_list_remove (pfil_list_add ph.ph_in
        ⟨func, arg, to_int32 env.random1, order % 256, name⟩
        (flags_clear fl PFIL_OUT) (order % 256)).2 func arg = (0, ph.ph_in) :=
      pfil_list_remove_add ph.ph_in ⟨func, arg, to_int32 env.random1, order % 256, name⟩ _ _
        (add_order_in_ok func arg name fl order ph env h0 hin).1
    by_cases hout : fl &&& PFIL_OUT ≠ 0
    · have ro : pfil_list_remove (pfil_list_add ph.ph_out
          ⟨func, arg, to_int32 env.random2, order % 256, name⟩
          (flags_clear fl PFIL_IN) (order % 256)).2 func arg = (0, ph.ph_out) :=
        pfil_list_remove_add ph.ph_out ⟨func, arg, to_int32 env.random2, order % 256, name⟩ _ _
          (add_order_out_ok func arg name fl order ph env h0 hout).1
      cases ph
      simp [pfil_remove_hook, hin, hout] at ri ro ⊢
      simp [ri, ro]
    · cases ph
      simp [pfil_remove_hook, hin, hout] at ri ⊢
      simp [ri]
  · by_cases hout : fl &&& PFIL_OUT ≠ 0
    · have ro : pfil_list_remove (pfil_list_add ph.ph_out
          ⟨func, arg, to_int32 env.random2, order % 256, name⟩
          (flags_clear fl PFIL_IN) (order % 256)).2 func arg = (0, ph.ph_out) :=
        pfil_list_remove_add ph.ph_out ⟨func, arg, to_int32 env.random2, order % 256, name⟩ _ _
          (add_order_out_ok func arg name fl order ph env h0 hout).1
      cases ph
      simp [pfil_remove_hook, hin, hout] at ro ⊢
      simp [ro]
    · cases ph
      simp [pfil_remove_hook, hin, hout]

/-- Instance of C11: B added with both flags and order 50 to a head whose input
list holds A, then removed with both flags. -/
theorem C11_add_remove_round_trip_witness :
    (pfil_add_hook_order 1 20 "B" PFIL_ALL 50 demo_head_in_a demo_env).1 = 0 ∧
    pfil_remove_hook 1 20 PFIL_ALL
      (pfil_add_hook_order 1 20 "B" PFIL_ALL 50 demo_head_in_a demo_env).2
      = (0, demo_head_in_a) :=
  ⟨rfl, C11_add_remove_round_trip 1 20 "B" PFIL_ALL 50 demo_head_in_a demo_env rfl⟩

/-- C12: the hook count is claimed to equal the number of hooks on both lists
after every call. Evaluated on a fresh head with an add of A on the output side
(returns 0) followed by an add of the same identity with both flags (returns
`EEXIST` after the input side was inserted and rolled back), the code leaves
`ph_nhooks = 2` with no hook on the input list and one on the output list. -/
theorem C12_nhooks_after_rollback :
    (pfil_apply (pfil_head_fresh demo_head0) (.add_order 1 10 "A" PFIL_OUT 128 demo_env)).1 = 0 ∧
    (pfil_apply (pfil_apply (pfil_head_fresh demo_head0)
        (.add_order 1 10 "A" PFIL_OUT 128 demo_env)).2
      (.add_order 1 10 "A" PFIL_ALL 128 demo_env)).1 = EEXIST ∧
    (pfil_run_ops demo_rollback_ops (pfil_head_fresh demo_head0)).ph_nhooks = 2 ∧
    (pfil_run_ops demo_rollback_ops (pfil_head_fresh demo_head0)).ph_in.length = 0 ∧
    (pfil_run_ops demo_rollback_ops (pfil_head_fresh demo_head0)).ph_out.length = 1 ∧
    (pfil_run_ops demo_rollback_ops (pfil_head_fresh demo_head0)).ph_nhooks ≠
      ((pfil_run_ops demo_rollback_ops (pfil_head_fresh demo_head0)).ph_in.length : Int) +
      ((pfil_run_ops demo_rollback_ops (pfil_head_fresh demo_head0)).ph_out.length : Int) := by
  refine ⟨rfl, rfl, rfl, rfl, rfl, ?_⟩
  have e1 : (pfil_run_ops demo_rollback_ops (pfil_head_fresh demo_head0)).ph_nhooks = 2 := rfl
  have e2 : (pfil_run_ops demo_rollback_ops (pfil_head_fresh demo_head0)).ph_in.length = 0 := rfl
  have e3 : (pfil_run_ops demo_rollback_ops (pfil_head_fresh demo_head0)).ph_out.length = 1 := rfl
  rw [e1, e2, e3]
  decide

/-- C13, the claim as stated fails: the output list of the head holds A, the input
list does not, and `pfil_add_hook_order` for the identity of A with flags
`PFIL_IN | PFIL_OUT` (no `PFIL_WAITOK`, so `malloc` is called with `M_NOWAIT`)
returns `ENOMEM`, not `EEXIST`, when the first allocation fails. -/
theorem C13_rollback_returns_enomem_counterexample :
    (∃ x ∈ demo_head_out_a.ph_out, x.pfil_func = 1 ∧ x.pfil_arg = 10) ∧
    (¬ ∃ x ∈ demo_head_out_a.ph_in, x.pfil_func = 1 ∧ x.pfil_arg = 10) ∧
    (pfil_add_hook_order 1 10 "A" PFIL_ALL 128 demo_head_out_a demo_env_bad).1 = ENOMEM ∧
    (pfil_add_hook_order 1 10 "A" PFIL_ALL 128 demo_head_out_a demo_env_bad).1 ≠ EEXIST := by
  refine ⟨⟨demo_A, by simp [demo_head_out_a], rfl, rfl⟩, by simp [demo_head_out_a], rfl, ?_⟩
  have e : (pfil_add_hook_order 1 10 "A" PFIL_ALL 128 demo_head_out_a demo_env_bad).1 = ENOMEM :=
    rfl
  rw [e]
  decide

/-- C13 as amended: partial-add rollback. For every head whose output list holds a
hook with identity `(func, arg)` and whose input list holds none,
`pfil_add_hook_order` for that identity with both `PFIL_IN` and `PFIL_OUT` set
returns `EEXIST` when both hook allocations succeed (always so with `PFIL_WAITOK`)
and `ENOMEM` when one of them fails; in either case the input list and the output
list are equal to their state before the call, so the input list does not hold
`(func, arg)`. -/
theorem C13_partial_add_rollback_lists (func arg : Nat) (name : String) (fl order : Nat)
    (ph : pfil_head) (env : pfil_env)
    (hin : fl &&& PFIL_IN ≠ 0) (hout : fl &&& PFIL_OUT ≠ 0)
    (hO : ∃ x ∈ ph.ph_out, x.pfil_func = func ∧ x.pfil_arg = arg)
    (hI : ¬ ∃ x ∈ ph.ph_in, x.pfil_func = func ∧ x.pfil_arg = arg) :
    ((fl &&& PFIL_WAITOK ≠ 0 ∨ (env.nowait1 = true ∧ env.nowait2 = true)) →
      (pfil_add_hook_order func arg name fl order ph env).1 = EEXIST) ∧
    ((fl &&& PFIL_WAITOK = 0 ∧ (env.nowait1 = false ∨ env.nowait2 = false)) →
      (pfil_add_hook_order func arg name fl order ph env).1 = ENOMEM) ∧
    (pfil_add_hook_order func arg name fl order ph env).2.ph_in = ph.ph_in ∧
    (pfil_add_hook_order func arg name fl order ph env).2.ph_out = ph.ph_out ∧
    ¬ ∃ x ∈ (pfil_add_hook_order func arg name fl order ph env).2.ph_in,
      x.pfil_func = func ∧ x.pfil_arg = arg := by
  have hdo : ph.ph_out.any (same_ident func arg) = true := (any_same_ident_iff _ _ _).mpr hO
  have hdi : ph.ph_in.any (same_ident func arg) = false := by
    rw [← Bool.not_eq_true]
    exact fun h => hI ((any_same_ident_iff _ _ _).mp h)
  have r1 := (pfil_list_add_shape ph.ph_in ⟨func, arg, to_int32 env.random1, order % 256, name⟩
    (flags_clear fl PFIL_OUT) (order % 256) hdi).1
  have r2 := pfil_list_add_dup ph.ph_out ⟨func, arg, to_int32 env.random2, order % 256, name⟩
    (flags_clear fl PFIL_IN) (order % 256) hdo
  have r3 : pfil_list_remove (pfil_list_add ph.ph_in
      ⟨func, arg, to_int32 env.random1, order % 256, name⟩
      (flags_clear fl PFIL_OUT) (order % 256)).2 func arg = (0, ph.ph_in) :=
    pfil_list_remove_add ph.ph_in ⟨func, arg, to_int32 env.random1, order % 256, name⟩ _ _ hdi
  have key : (fl &&& PFIL_WAITOK = 0 ∧ (env.nowait1 = false ∨ env.nowait2 = false) ∧
        pfil_add_hook_order func arg name fl order ph env = (ENOMEM, ph)) ∨
      ((fl &&& PFIL_WAITOK ≠ 0 ∨ (env.nowait1 = true ∧ env.nowait2 = true)) ∧
        (pfil_add_hook_order func arg name fl order ph env).1 = EEXIST ∧
        (pfil_add_hook_order func arg name fl order ph env).2.ph_in = ph.ph_in ∧
        (pfil_add_hook_order func arg name fl order ph env).2.ph_out = ph.ph_out) := by
    unfold pfil_add_hook_order
    by_cases hw : fl &&& PFIL_WAITOK = 0
    · cases h1 : env.nowait1 with
      | false => left; simp [hin, hw, h1]
      | true =>
        cases h2 : env.nowait2 with
        | false => left; simp [hin, hout, hw, h1, h2]
        | true =>
          right
          simp [hin, hout, hw, h1, h2, r1, r2, r3, EEXIST]
    · right
      simp [hin, hout, hw, r1, r2, r3, EEXIST]
  rcases key with ⟨hw, hn, e⟩ | ⟨ha, e1, e2, e3⟩
  · refine ⟨?_, fun _ => by rw [e], by rw [e], by rw [e], by rw [e]; exact hI⟩
    rintro (h | ⟨h1, h2⟩)
    · exact absurd hw h
    · rcases hn with h | h
      · rw [h1] at h; cases h
      · rw [h2] at h; cases h
  · refine ⟨fun _ => e1, ?_, e2, e3, by rw [e2]; exact hI⟩
    rintro ⟨hw, hn⟩
    rcases ha with h | ⟨h1, h2⟩
    · exact absurd hw h
    · rcases hn with h | h
      · rw [h1] at h; cases h
      · rw [h2] at h; cases h

/-- Instance of C13 as amended: the output list holds A, both allocations succeed,
and the add of A with both flags returns `EEXIST` with both lists as before. -/
theorem C13_partial_add_rollback_lists_witness :
    (pfil_add_hook_order 1 10 "A" PFIL_ALL 128 demo_head_out_a demo_env).1 = EEXIST ∧
    (pfil_add_hook_order 1 10 "A" PFIL_ALL 128 demo_head_out_a demo_env).2.ph_in
      = demo_head_out_a.ph_in ∧
    (pfil_add_hook_order 1 10 "A" PFIL_ALL 128 demo_head_out_a demo_env).2.ph_out
      = demo_head_out_a.ph_out := by
  have h := C13_partial_add_rollback_lists 1 10 "A" PFIL_ALL 128 demo_head_out_a demo_env
    (by decide) (by decide) ⟨demo_A, by simp [demo_head_out_a], rfl, rfl⟩
    (by simp [demo_head_out_a])
  exact ⟨h.1 (Or.inr ⟨rfl, rfl⟩), h.2.2.1, h.2.2.2.1⟩

/-- C14, the claim as stated fails: with flags 0, which hold neither `PFIL_IN` nor
`PFIL_OUT`, `pfil_add_hook_order` returns 0 and `pfil_remove_hook` returns 0. -/
theorem C14_no_side_flags_return_zero_counterexample :
    (0 &&& PFIL_IN = 0 ∧ 0 &&& PFIL_OUT = 0) ∧
    (pfil_add_hook_order 1 10 "A" 0 128 demo_head_in_a demo_env).1 = 0 ∧
    (pfil_remove_hook 1 10 0 demo_head_in_a).1 = 0 :=
  ⟨⟨rfl, rfl⟩, rfl, rfl⟩

/-- C14 as amended: for every head and every `(func, arg)`, `pfil_add_hook_order`
and `pfil_remove_hook` called with flags that hold neither `PFIL_IN` nor `PFIL_OUT`
return 0 and leave the head as it was; the code has no error for such flags. -/
theorem C14_no_side_flags_are_no_ops (func arg : Nat) (name : String) (fl order : Nat)
    (ph : pfil_head) (env : pfil_env)
    (hin : fl &&& PFIL_IN = 0) (hout : fl &&& PFIL_OUT = 0) :
    pfil_add_hook_order func arg name fl order ph env = (0, ph) ∧
    pfil_remove_hook func arg fl ph = (0, ph) :=
  ⟨add_order_no_side func arg name fl order ph env hin hout,
   remove_hook_no_side func arg fl ph hin hout⟩

/-- Instance of C14 as amended: flags `PFIL_WAITOK` alone. -/
theorem C14_no_side_flags_are_no_ops_witness :
    (PFIL_WAITOK &&& PFIL_IN = 0 ∧ PFIL_WAITOK &&& PFIL_OUT = 0) ∧
    pfil_add_hook_order 1 20 "B" PFIL_WAITOK 50 demo_head_in_a demo_env = (0, demo_head_in_a) ∧
    pfil_remove_hook 1 10 PFIL_WAITOK demo_head_in_a = (0, demo_head_in_a) :=
  ⟨⟨rfl, rfl⟩, C14_no_side_flags_are_no_ops 1 20 "B" PFIL_WAITOK 50 demo_head_in_a demo_env rfl rfl |>.1,
   C14_no_side_flags_are_no_ops 1 10 "B" PFIL_WAITOK 50 demo_head_in_a demo_env rfl rfl |>.2⟩

/-! ## Cookies -/

theorem cookie_walk_absent (l : pfil_list_t) (func arg : Nat) :
    ∀ c : Int, (∀ x ∈ l, ¬ (x.pfil_func = func ∧ x.pfil_arg = arg)) →
      pfil_cookie_walk l func arg c = c := by
  induction l with
  | nil => intro c _; rfl
  | cons a t ih =>
    intro c h
    have ha := h a (List.mem_cons_self _ _)
    simp only [pfil_cookie_walk, ha, if_false]
    exact ih c (fun x hx => h x (List.mem_cons_of_mem _ hx))

theorem cookie_walk_unique (l : pfil_list_t) (func arg : Nat) (hu : ident_unique l) :
    ∀ c : Int, ∀ x ∈ l, (x.pfil_func = func ∧ x.pfil_arg = arg) →
      pfil_cookie_walk l func arg c = x.pfil_cookie := by
  induction l with
  | nil => intro c x hx; cases hx
  | cons a t ih =>
    intro c x hx hm
    unfold ident_unique at hu
    rw [List.pairwise_cons] at hu
    rcases List.mem_cons.mp hx with rfl | hxt
    · simp only [pfil_cookie_walk, hm, and_self, if_true]
      apply cookie_walk_absent
      intro y hy hym
      exact hu.1 y hy ⟨hm.1.trans hym.1.symm, hm.2.trans hym.2.symm⟩
    · have ha : ¬ (a.pfil_func = func ∧ a.pfil_arg = arg) := by
        intro ham
        exact hu.1 x hxt ⟨ham.1.trans hm.1.symm, ham.2.trans hm.2.symm⟩
      simp only [pfil_cookie_walk, ha, if_false]
      exact ih hu.2 c x hxt hm

/-- The walk of `pfil_get_cookie` over a list that has just received a hook of a
new identity returns the cookie of that hook. -/
theorem cookie_walk_inserted (pre post : pfil_list_t) (x : packet_filter_hook)
    (hnew : ∀ e ∈ pre ++ post, ¬ (e.pfil_func = x.pfil_func ∧ e.pfil_arg = x.pfil_arg)) :
    ∀ c : Int, pfil_cookie_walk (pre ++ x :: post) x.pfil_func x.pfil_arg c = x.pfil_cookie := by
  induction pre with
  | nil =>
    intro c
    simp only [List.nil_append, pfil_cookie_walk, and_self, if_true]
    exact cookie_walk_absent post _ _ _ (fun e he => hnew e (by simpa using he))
  | cons a t ih =>
    intro c
    have ha := hnew a (by simp)
    simp only [List.cons_append, pfil_cookie_walk, ha, if_false]
    exact ih (fun e he => hnew e (by
      rcases List.mem_append.mp he with h | h
      · exact List.mem_append_left _ (List.mem_cons_of_mem _ h)
      · exact List.mem_append_right _ h)) c

theorem to_int32_ne_zero_iff (r : Nat) : to_int32 r ≠ 0 ↔ r % 4294967296 ≠ 0 := by
  unfold to_int32
  have hlt : r % 4294967296 < 4294967296 := Nat.mod_lt _ (by decide)
  by_cases h : r % 4294967296 < 2147483648
  · rw [if_pos h]
    constructor
    · intro h1 h2
      apply h1
      rw [h2]
      rfl
    · intro h1 h2
      apply h1
      exact_mod_cast h2
  · rw [if_neg h]
    constructor
    · intro _ h2
      rw [h2] at h
      exact h (by decide)
    · intro _ h2
      omega

/-- The input list after a `pfil_add_hook_order` that returns 0 with `PFIL_IN` set:
the old list with the new hook, stamped with the first random value, at one
position, its identity absent from the old list. -/
theorem add_order_in_inserted (func arg : Nat) (name : String) (fl order : Nat) (ph : pfil_head)
    (env : pfil_env) (h0 : (pfil_add_hook_order func arg name fl order ph env).1 = 0)
    (hin : fl &&& PFIL_IN ≠ 0) :
    ∃ pre post, ph.ph_in = pre ++ post ∧
      (pfil_add_hook_order func arg name fl order ph env).2.ph_in =
        pre ++ ⟨func, arg, to_int32 env.random1, order % 256, name⟩ :: post ∧
      ∀ e ∈ pre ++ post, ¬ (e.pfil_func = func ∧ e.pfil_arg = arg) := by
  obtain ⟨hd, he⟩ := add_order_in_ok func arg name fl order ph env h0 hin
  obtain ⟨_, pre, post, e1, e2, _, _⟩ := pfil_list_add_shape ph.ph_in
    ⟨func, arg, to_int32 env.random1, order % 256, name⟩
    (flags_clear fl PFIL_OUT) (order % 256) hd
  refine ⟨pre, post, e1, by rw [he, e2], ?_⟩
  intro e hm hp
  have := (any_same_ident_iff func arg ph.ph_in).mpr ⟨e, by rw [e1]; exact hm, hp⟩
  rw [hd] at this
  cases this

/-- The output list after a `pfil_add_hook_order` that returns 0 with `PFIL_OUT`
set: the old list with the new hook, stamped with the second random value, at one
position, its identity absent from the old list. -/
theorem add_order_out_inserted (func arg : Nat) (name : String) (fl order : Nat) (ph : pfil_head)
    (env : pfil_env) (h0 : (pfil_add_hook_order func arg name fl order ph env).1 = 0)
    (hout : fl &&& PFIL_OUT ≠ 0) :
    ∃ pre post, ph.ph_out = pre ++ post ∧
      (pfil_add_hook_order func arg name fl order ph env).2.ph_out =
        pre ++ ⟨func, arg, to_int32 env.random2, order % 256, name⟩ :: post ∧
      ∀ e ∈ pre ++ post, ¬ (e.pfil_func = func ∧ e.pfil_arg = arg) := by
  obtain ⟨hd, he⟩ := add_order_out_ok func arg name fl order ph env h0 hout
  obtain ⟨_, pre, post, e1, e2, _, _⟩ := pfil_list_add_shape ph.ph_out
    ⟨func, arg, to_int32 env.random2, order % 256, name⟩
    (flags_clear fl PFIL_IN) (order % 256) hd
  refine ⟨pre, post, e1, by rw [he, e2], ?_⟩
  intro e hm hp
  have := (any_same_ident_iff func arg ph.ph_out).mpr ⟨e, by rw [e1]; exact hm, hp⟩
  rw [hd] at this
  cases this

/-- C15: `pfil_get_cookie`. It leaves the head unchanged. On the list selected by
the flags (the input list when `PFIL_IN` is set, otherwise the output list when
`PFIL_OUT` is set), when that list has no two hooks of one identity, it returns
the `pfil_cookie` of the hook with identity `(func, arg)` when the list holds one
and 0 when it holds none. Right after a `pfil_add_hook_order` that returned 0 and
stamped a cookie on the hook of that list, `pfil_get_cookie` for the same
function, argument and direction returns that cookie. -/
theorem C15_get_cookie :
    (∀ (func arg fl : Nat) (ph : pfil_head), (pfil_get_cookie func arg fl ph).2 = ph) ∧
    (∀ (func arg fl : Nat) (ph : pfil_head), fl &&& PFIL_IN ≠ 0 → ident_unique ph.ph_in →
      (∀ x ∈ ph.ph_in, (x.pfil_func = func ∧ x.pfil_arg = arg) →
        (pfil_get_cookie func arg fl ph).1 = x.pfil_cookie) ∧
      ((∀ x ∈ ph.ph_in, ¬ (x.pfil_func = func ∧ x.pfil_arg = arg)) →
        (pfil_get_cookie func arg fl ph).1 = 0)) ∧
    (∀ (func arg fl : Nat) (ph : pfil_head), fl &&& PFIL_IN = 0 → fl &&& PFIL_OUT ≠ 0 →
      ident_unique ph.ph_out →
      (∀ x ∈ ph.ph_out, (x.pfil_func = func ∧ x.pfil_arg = arg) →
        (pfil_get_cookie func arg fl ph).1 = x.pfil_cookie) ∧
      ((∀ x ∈ ph.ph_out, ¬ (x.pfil_func = func ∧ x.pfil_arg = arg)) →
        (pfil_get_cookie func arg fl ph).1 = 0)) ∧
    (∀ (func arg : Nat) (name : String) (fl order : Nat) (ph : pfil_head) (env : pfil_env)
        (gfl : Nat),
      (pfil_add_hook_order func arg name fl order ph env).1 = 0 →
      (fl &&& PFIL_IN ≠ 0 → gfl &&& PFIL_IN ≠ 0 →
        (∃ x ∈ (pfil_add_hook_order func arg name fl order ph env).2.ph_in,
          (x.pfil_func = func ∧ x.pfil_arg = arg) ∧ x.pfil_cookie = to_int32 env.random1) ∧
        (pfil_get_cookie func arg gfl (pfil_add_hook_order func arg name fl order ph env).2).1
          = to_int32 env.random1) ∧
      (fl &&& PFIL_OUT ≠ 0 → gfl &&& PFIL_IN = 0 → gfl &&& PFIL_OUT ≠ 0 →
        (∃ x ∈ (pfil_add_hook_order func arg name fl order ph env).2.ph_out,
          (x.pfil_func = func ∧ x.pfil_arg = arg) ∧ x.pfil_cookie = to_int32 env.random2) ∧
        (pfil_get_cookie func arg gfl (pfil_add_hook_order func arg name fl order ph env).2).1
          = to_int32 env.random2)) := by
  refine ⟨?_, ?_, ?_, ?_⟩
  · intro func arg fl ph
    unfold pfil_get_cookie
    by_cases hin : fl &&& PFIL_IN ≠ 0
    · rw [if_pos hin]
    · rw [if_neg hin]
      by_cases hout : fl &&& PFIL_OUT ≠ 0
      · rw [if_pos hout]
      · rw [if_neg hout]
  · intro func arg fl ph hin hu
    unfold pfil_get_cookie
    rw [if_pos hin]
    exact ⟨fun x hx hm => cookie_walk_unique ph.ph_in func arg hu 0 x hx hm,
      fun h => cookie_walk_absent ph.ph_in func arg 0 h⟩
  · intro func arg fl ph hin hout hu
    unfold pfil_get_cookie
    rw [if_neg (not_not.mpr hin), if_pos hout]
    exact ⟨fun x hx hm => cookie_walk_unique ph.ph_out func arg hu 0 x hx hm,
      fun h => cookie_walk_absent ph.ph_out func arg 0 h⟩
  · intro func arg name fl order ph env gfl h0
    constructor
    · intro hin hg
      obtain ⟨pre, post, _, e2, e3⟩ := add_order_in_inserted func arg name fl order ph env h0 hin
      refine ⟨⟨_, by rw [e2]; exact List.mem_append_right _ (List.mem_cons_self _ _),
        ⟨rfl, rfl⟩, rfl⟩, ?_⟩
      unfold pfil_get_cookie
      rw [if_pos hg, e2]
      exact cookie_walk_inserted pre post
        ⟨func, arg, to_int32 env.random1, order % 256, name⟩ e3 0
    · intro hout hg1 hg2
      obtain ⟨pre, post, _, e2, e3⟩ := add_order_out_inserted func arg name fl order ph env h0 hout
      refine ⟨⟨_, by rw [e2]; exact List.mem_append_right _ (List.mem_cons_self _ _),
        ⟨rfl, rfl⟩, rfl⟩, ?_⟩
      unfold pfil_get_cookie
      rw [if_neg (not_not.mpr hg1), if_pos hg2, e2]
      exact cookie_walk_inserted pre post
        ⟨func, arg, to_int32 env.random2, order % 256, name⟩ e3 0

/-- Instance of C15: on the head with A, B, C on both lists the cookie of B is
found on the input side, an absent identity gives 0, and a hook added on the
output side with random value 1002 is found with cookie 1002. -/
theorem C15_get_cookie_witness :
    (pfil_get_cookie 1 20 PFIL_IN demo_head_abc).1 = demo_B.pfil_cookie ∧
    (pfil_get_cookie 1 40 PFIL_IN demo_head_abc).1 = 0 ∧
    (pfil_get_cookie 1 40 PFIL_OUT
      (pfil_add_hook_order 1 40 "D" PFIL_OUT 128 demo_head_abc demo_env).2).1 = 1002 := by
  have hu : ident_unique demo_head_abc.ph_in := by
    simp [ident_unique, demo_head_abc, demo_A, demo_B, demo_C]
  have h1 := (C15_get_cookie.2.1 1 20 PFIL_IN demo_head_abc (by decide) hu).1 demo_B
    (by simp [demo_head_abc]) ⟨rfl, rfl⟩
  have h2 := (C15_get_cookie.2.1 1 40 PFIL_IN demo_head_abc (by decide) hu).2
    (by simp [demo_head_abc, demo_A, demo_B, demo_C])
  have h3 := (C15_get_cookie.2.2.2 1 40 "D" PFIL_OUT 128 demo_head_abc demo_env PFIL_OUT rfl).2
    (by decide) (by decide) (by decide)
  exact ⟨h1, h2, h3.2⟩

/-- C16, the claim as stated fails: when `random()` returns 0 a call of
`pfil_add_hook_order` with `PFIL_IN` on a fresh head returns 0 and the hook it
inserts has `pfil_cookie = 0`. -/
theorem C16_cookie_zero_counterexample :
    (pfil_add_hook_order 1 10 "A" PFIL_IN 128 (pfil_head_fresh demo_head0) demo_env_zero).1 = 0 ∧
    (pfil_add_hook_order 1 10 "A" PFIL_IN 128 (pfil_head_fresh demo_head0) demo_env_zero).2.ph_in
      = [⟨1, 10, 0, 128, "A"⟩] ∧
    ∃ x ∈ (pfil_add_hook_order 1 10 "A" PFIL_IN 128 (pfil_head_fresh demo_head0)
        demo_env_zero).2.ph_in, x.pfil_cookie = 0 :=
  ⟨rfl, rfl, ⟨1, 10, 0, 128, "A"⟩, List.mem_cons_self _ _, rfl⟩

/-- C16 as amended: for every `pfil_add_hook_order` call that returns 0, the hook
inserted on the input list carries the value of the first `random()` call
converted to `int`, the hook inserted on the output list that of the second, and
such a cookie is different from 0 exactly when the value returned by `random()` is
not a multiple of 2^32; `pfil_add_hook_order` does not test the value. -/
theorem C16_cookie_is_random_value (func arg : Nat) (name : String) (fl order : Nat)
    (ph : pfil_head) (env : pfil_env)
    (h0 : (pfil_add_hook_order func arg name fl order ph env).1 = 0) :
    (fl &&& PFIL_IN ≠ 0 → ∃ pre post, ph.ph_in = pre ++ post ∧
      (pfil_add_hook_order func arg name fl order ph env).2.ph_in =
        pre ++ ⟨func, arg, to_int32 env.random1, order % 256, name⟩ :: post) ∧
    (fl &&& PFIL_OUT ≠ 0 → ∃ pre post, ph.ph_out = pre ++ post ∧
      (pfil_add_hook_order func arg name fl order ph env).2.ph_out =
        pre ++ ⟨func, arg, to_int32 env.random2, order % 256, name⟩ :: post) ∧
    (to_int32 env.random1 ≠ 0 ↔ env.random1 % 4294967296 ≠ 0) ∧
    (to_int32 env.random2 ≠ 0 ↔ env.random2 % 4294967296 ≠ 0) := by
  refine ⟨?_, ?_, to_int32_ne_zero_iff _, to_int32_ne_zero_iff _⟩
  · intro hin
    obtain ⟨pre, post, e1, e2, _⟩ := add_order_in_inserted func arg name fl order ph env h0 hin
    exact ⟨pre, post, e1, e2⟩
  · intro hout
    obtain ⟨pre, post, e1, e2, _⟩ := add_order_out_inserted func arg name fl order ph env h0 hout
    exact ⟨pre, post, e1, e2⟩

/-- Instance of C16 as amended: with random values 1001 and 1002 the two hooks
added to a fresh head carry the cookies 1001 and 1002, both different from 0. -/
theorem C16_cookie_is_random_value_witness :
    (pfil_add_hook_order 1 10 "A" PFIL_ALL 128 (pfil_head_fresh demo_head0) demo_env).1 = 0 ∧
    to_int32 demo_env.random1 ≠ 0 ∧ to_int32 demo_env.random2 ≠ 0 := by
  have h := C16_cookie_is_random_value 1 10 "A" PFIL_ALL 128 (pfil_head_fresh demo_head0)
    demo_env rfl
  exact ⟨rfl, h.2.2.1.mpr (by decide), h.2.2.2.mpr (by decide)⟩

/-! ## Combined remove -/

/-- C20: the combined remove is not atomic. With both `PFIL_IN` and `PFIL_OUT`
set: when the input list holds a hook with identity `(func, arg)` and the output
list holds none, `pfil_remove_hook` returns `ENOENT` although the first such hook
has been removed from the input list and `ph_nhooks` decremented by one, the
output list being unchanged; when the input list holds no such hook, the call
returns `ENOENT` and leaves the whole head, output list and `ph_nhooks` included,
as it was, whatever the output list holds. -/
theorem C20_combined_remove_not_atomic (func arg fl : Nat) (ph : pfil_head)
    (hin : fl &&& PFIL_IN ≠ 0) (hout : fl &&& PFIL_OUT ≠ 0) :
    ((∃ x ∈ ph.ph_in, x.pfil_func = func ∧ x.pfil_arg = arg) →
      (¬ ∃ x ∈ ph.ph_out, x.pfil_func = func ∧ x.pfil_arg = arg) →
      (pfil_remove_hook func arg fl ph).1 = ENOENT ∧
      (pfil_remove_hook func arg fl ph).2.ph_out = ph.ph_out ∧
      (pfil_remove_hook func arg fl ph).2.ph_nhooks = ph.ph_nhooks - 1 ∧
      ∃ pre x post, ph.ph_in = pre ++ x :: post ∧ (x.pfil_func = func ∧ x.pfil_arg = arg) ∧
        (∀ e ∈ pre, ¬ (e.pfil_func = func ∧ e.pfil_arg = arg)) ∧
        (pfil_remove_hook func arg fl ph).2.ph_in = pre ++ post) ∧
    ((¬ ∃ x ∈ ph.ph_in, x.pfil_func = func ∧ x.pfil_arg = arg) →
      pfil_remove_hook func arg fl ph = (ENOENT, ph)) := by
  constructor
  · intro hI hO
    obtain ⟨pre, x, post, e1, e2, e3⟩ := split_first_ident ph.ph_in func arg hI
    have r1 : pfil_list_remove ph.ph_in func arg = (0, pre ++ post) := by
      rw [e1]
      exact pfil_list_remove_first pre x post func arg e2 e3
    have r2 : pfil_list_remove ph.ph_out func arg = (ENOENT, ph.ph_out) :=
      pfil_list_remove_absent ph.ph_out func arg (fun e he hp => hO ⟨e, he, hp⟩)
    have e : pfil_remove_hook func arg fl ph =
        (ENOENT, ⟨ph.ph_type, ph.ph_val, ph.ph_nhooks - 1, pre ++ post, ph.ph_out⟩) := by
      simp [pfil_remove_hook, hin, hout, r1, r2, ENOENT]
    rw [e]
    exact ⟨rfl, rfl, rfl, pre, x, post, e1, e2, e3, rfl⟩
  · intro hI
    have r1 : pfil_list_remove ph.ph_in func arg = (ENOENT, ph.ph_in) :=
      pfil_list_remove_absent ph.ph_in func arg (fun e he hp => hI ⟨e, he, hp⟩)
    simp [pfil_remove_hook, hin, r1, ENOENT]

/-- Instance of C20: A is on the input list only and is removed from it while the
call returns `ENOENT`; A is on the output list only and the call returns `ENOENT`
with the head untouched. -/
theorem C20_combined_remove_not_atomic_witness :
    ((pfil_remove_hook 1 10 PFIL_ALL demo_head_in_a).1 = ENOENT ∧
      (pfil_remove_hook 1 10 PFIL_ALL demo_head_in_a).2.ph_nhooks = demo_head_in_a.ph_nhooks - 1) ∧
    pfil_remove_hook 1 10 PFIL_ALL demo_head_out_a = (ENOENT, demo_head_out_a) := by
  have h1 := (C20_combined_remove_not_atomic 1 10 PFIL_ALL demo_head_in_a (by decide)
    (by decide)).1 ⟨demo_A, by simp [demo_head_in_a], rfl, rfl⟩ (by simp [demo_head_in_a])
  have h2 := (C20_combined_remove_not_atomic 1 10 PFIL_ALL demo_head_out_a (by decide)
    (by decide)).2 (by simp [demo_head_out_a])
  exact ⟨⟨h1.1, h1.2.2.1⟩, h2⟩

/-! ## Registry -/

theorem any_same_key_iff (type : Int) (val : Nat) (reg : List pfil_head) :
    reg.any (same_key type val) = true ↔
      ∃ lph ∈ reg, lph.ph_type = type ∧ lph.ph_val = val := by
  simp [List.any_eq_true, same_key]

theorem head_register_dup (reg : List pfil_head) (ph : pfil_head)
    (h : ∃ lph ∈ reg, lph.ph_type = ph.ph_type ∧ lph.ph_val = ph.ph_val) :
    pfil_head_register reg ph = (EEXIST, reg) := by
  obtain ⟨lph, hm, h1, h2⟩ := h
  have : reg.any (fun lph => decide (ph.ph_type = lph.ph_type) && decide (ph.ph_val = lph.ph_val))
      = true := by
    rw [List.any_eq_true]
    exact ⟨lph, hm, by simp [h1, h2]⟩
  simp [pfil_head_register, this]

theorem head_register_new (reg : List pfil_head) (ph : pfil_head)
    (h : ¬ ∃ lph ∈ reg, lph.ph_type = ph.ph_type ∧ lph.ph_val = ph.ph_val) :
    pfil_head_register reg ph = (0, pfil_head_fresh ph :: reg) := by
  have : reg.any (fun lph => decide (ph.ph_type = lph.ph_type) && decide (ph.ph_val = lph.ph_val))
      = false := by
    rw [← Bool.not_eq_true, List.any_eq_true]
    rintro ⟨lph, hm, hp⟩
    simp only [Bool.and_eq_true, decide_eq_true_eq] at hp
    exact h ⟨lph, hm, hp.1.symm, hp.2.symm⟩
  simp [pfil_head_register, this]

theorem registry_unlink_sublist (type : Int) (val : Nat) (reg : List pfil_head) :
    (registry_unlink type val reg).Sublist reg := by
  induction reg with
  | nil => exact List.Sublist.refl _
  | cons a t ih =>
    by_cases h : same_key type val a = true
    · simp only [registry_unlink, h, if_true]
      exact List.sublist_cons_self a t
    · simp only [registry_unlink, h]
      exact ih.cons₂ a

theorem registry_unlink_no_key (type : Int) (val : Nat) (reg : List pfil_head)
    (hu : registry_unique reg) :
    ∀ x ∈ registry_unlink type val reg, ¬ (x.ph_type = type ∧ x.ph_val = val) := by
  induction reg with
  | nil => intro x hx; cases hx
  | cons a t ih =>
    unfold registry_unique at hu
    rw [List.pairwise_cons] at hu
    by_cases h : same_key type val a = true
    · simp only [registry_unlink, h, if_true]
      intro x hx hk
      simp only [same_key, Bool.and_eq_true, decide_eq_true_eq] at h
      exact hu.1 x hx ⟨h.1.trans hk.1.symm, h.2.trans hk.2.symm⟩
    · simp only [registry_unlink, h]
      intro x hx
      rcases List.mem_cons.mp hx with rfl | hx
      · intro hk
        apply h
        simp [same_key, hk.1, hk.2]
      · exact ih hu.2 x hx

theorem head_register_unique (reg : List pfil_head) (ph : pfil_head)
    (hu : registry_unique reg) : registry_unique (pfil_head_register reg ph).2 := by
  by_cases h : ∃ lph ∈ reg, lph.ph_type = ph.ph_type ∧ lph.ph_val = ph.ph_val
  · rw [head_register_dup reg ph h]
    exact hu
  · rw [head_register_new reg ph h]
    unfold registry_unique
    rw [List.pairwise_cons]
    refine ⟨?_, hu⟩
    intro x hx hk
    exact h ⟨x, hx, hk.1.symm, hk.2.symm⟩

theorem registry_run_unique (ops : List registry_op) :
    ∀ reg reg2 : List pfil_head, registry_unique reg → registry_run ops reg = some reg2 →
      registry_unique reg2 := by
  induction ops with
  | nil =>
    intro reg reg2 hu h
    simp only [registry_run, Option.some.injEq] at h
    rw [← h]
    exact hu
  | cons op rest ih =>
    intro reg reg2 hu h
    cases op with
    | register ph =>
      exact ih _ reg2 (head_register_unique reg ph hu) h
    | unregister ph =>
      simp only [registry_run] at h
      cases hr : pfil_head_unregister reg ph with
      | none => rw [hr] at h; cases h
      | some r =>
        rw [hr] at h
        refine ih r.2 reg2 ?_ h
        unfold pfil_head_unregister at hr
        by_cases ha : reg.any (same_key ph.ph_type ph.ph_val) = true
        · rw [if_pos ha, Option.some.injEq] at hr
          rw [← hr]
          exact List.Pairwise.sublist (registry_unlink_sublist _ _ reg) hu
        · rw [if_neg ha] at hr
          cases hr

/-- C17: `pfil_head_register` returns `EEXIST` exactly when a head with the same
`ph_type` and the same key value is already in the registry, and then the registry
is unchanged; otherwise it returns 0, the head is in the registry with empty
`ph_in`, empty `ph_out` and `ph_nhooks = 0`, and every head registered before is
still registered. Hence after any sequence of register and unregister calls
starting from the empty registry no two registered heads share `(type, key)`. -/
theorem C17_head_register :
    (∀ (reg : List pfil_head) (ph : pfil_head),
      ((pfil_head_register reg ph).1 = EEXIST ↔
        ∃ lph ∈ reg, lph.ph_type = ph.ph_type ∧ lph.ph_val = ph.ph_val) ∧
      ((∃ lph ∈ reg, lph.ph_type = ph.ph_type ∧ lph.ph_val = ph.ph_val) →
        (pfil_head_register reg ph).2 = reg) ∧
      ((¬ ∃ lph ∈ reg, lph.ph_type = ph.ph_type ∧ lph.ph_val = ph.ph_val) →
        (pfil_head_register reg ph).1 = 0 ∧
        (pfil_head_register reg ph).2 = pfil_head_fresh ph :: reg ∧
        pfil_head_fresh ph ∈ (pfil_head_register reg ph).2 ∧
        (pfil_head_fresh ph).ph_type = ph.ph_type ∧ (pfil_head_fresh ph).ph_val = ph.ph_val ∧
        (pfil_head_fresh ph).ph_in = [] ∧ (pfil_head_fresh ph).ph_out = [] ∧
        (pfil_head_fresh ph).ph_nhooks = 0 ∧
        ∀ x ∈ reg, x ∈ (pfil_head_register reg ph).2)) ∧
    (∀ (ops : List registry_op) (reg : List pfil_head),
      registry_run ops [] = some reg → registry_unique reg) := by
  constructor
  · intro reg ph
    refine ⟨⟨?_, fun h => by rw [head_register_dup reg ph h]⟩,
      fun h => by rw [head_register_dup reg ph h], ?_⟩
    · intro h
      by_contra hn
      rw [head_register_new reg ph hn] at h
      have h2 : (0 : Int) = EEXIST := h
      exact absurd h2 (by decide)
    · intro h
      rw [head_register_new reg ph h]
      exact ⟨rfl, rfl, List.mem_cons_self _ _, rfl, rfl, rfl, rfl, rfl,
        fun x hx => List.mem_cons_of_mem _ hx⟩
  · intro ops reg h
    exact registry_run_unique ops [] reg List.Pairwise.nil h

/-- Instance of C17: two heads are registered, a second registration of the first
returns `EEXIST` and changes nothing, and after unregistering the first the
registry holds the second alone. -/
theorem C17_head_register_witness :
    (pfil_head_register [demo_head1] demo_head0).1 = 0 ∧
    (pfil_head_register [pfil_head_fresh demo_head0, demo_head1] demo_head0)
      = (EEXIST, [pfil_head_fresh demo_head0, demo_head1]) ∧
    registry_run [.register demo_head1, .register demo_head0, .register demo_head0,
      .unregister demo_head0] [] = some [demo_head1] ∧
    registry_unique [demo_head1] := by
  have h1 := ((C17_head_register.1 [demo_head1] demo_head0).2.2
    (by simp [demo_head1, demo_head0])).1
  have h2 := (C17_head_register.1 [pfil_head_fresh demo_head0, demo_head1] demo_head0).2.1
    ⟨pfil_head_fresh demo_head0, List.mem_cons_self _ _, rfl, rfl⟩
  have h3 := (C17_head_register.1 [pfil_head_fresh demo_head0, demo_head1] demo_head0).1.mpr
    ⟨pfil_head_fresh demo_head0, List.mem_cons_self _ _, rfl, rfl⟩
  have h4 : registry_run [.register demo_head1, .register demo_head0, .register demo_head0,
      .unregister demo_head0] [] = some [demo_head1] := rfl
  exact ⟨h1, Prod.ext h3 h2, h4, C17_head_register.2 _ _ h4⟩

/-- C18: `pfil_head_get` leaves the registry unchanged; it returns a registered
head whose `ph_type` equals `type` and whose key equals `val` when such a head is
registered, and `NULL` (`none`) when none is. After a `pfil_head_register` of `h`
that returned 0 the lookup of the type and key of `h` returns `h` as registered;
in a registry without two heads of one `(type, key)`, a registered head can be
unregistered, `pfil_head_unregister` returns 0, and afterwards the lookup of its
type and key returns `none`. -/
theorem C18_head_get :
    (∀ (reg : List pfil_head) (type : Int) (val : Nat),
      (pfil_head_get reg type val).2 = reg ∧
      ((∃ lph ∈ reg, lph.ph_type = type ∧ lph.ph_val = val) →
        ∃ ph, (pfil_head_get reg type val).1 = some ph ∧ ph ∈ reg ∧
          ph.ph_type = type ∧ ph.ph_val = val) ∧
      ((¬ ∃ lph ∈ reg, lph.ph_type = type ∧ lph.ph_val = val) →
        (pfil_head_get reg type val).1 = none)) ∧
    (∀ (reg : List pfil_head) (h : pfil_head), (pfil_head_register reg h).1 = 0 →
      (pfil_head_get (pfil_head_register reg h).2 h.ph_type h.ph_val).1
        = some (pfil_head_fresh h)) ∧
    (∀ (reg : List pfil_head) (h : pfil_head), registry_unique reg →
      (∃ lph ∈ reg, lph.ph_type = h.ph_type ∧ lph.ph_val = h.ph_val) →
      ∃ r, pfil_head_unregister reg h = some r ∧ r.1 = 0 ∧
        (pfil_head_get r.2 h.ph_type h.ph_val).1 = none) := by
  refine ⟨?_, ?_, ?_⟩
  · intro reg type val
    refine ⟨rfl, ?_, ?_⟩
    · intro h
      unfold pfil_head_get
      cases hf : reg.find? (same_key type val) with
      | none =>
        exfalso
        obtain ⟨lph, hm, h1, h2⟩ := h
        have := List.find?_eq_none.mp hf lph hm
        apply this
        simp [same_key, h1, h2]
      | some ph =>
        have hp := List.find?_some hf
        simp only [same_key, Bool.and_eq_true, decide_eq_true_eq] at hp
        exact ⟨ph, rfl, List.mem_of_find?_eq_some hf, hp.1, hp.2⟩
    · intro h
      unfold pfil_head_get
      apply List.find?_eq_none.mpr
      intro x hx hp
      simp only [same_key, Bool.and_eq_true, decide_eq_true_eq] at hp
      exact h ⟨x, hx, hp.1, hp.2⟩
  · intro reg h h0
    have hn : ¬ ∃ lph ∈ reg, lph.ph_type = h.ph_type ∧ lph.ph_val = h.ph_val := by
      intro hd
      rw [head_register_dup reg h hd] at h0
      have h2 : EEXIST = 0 := h0
      exact absurd h2 (by decide)
    rw [head_register_new reg h hn]
    unfold pfil_head_get
    apply List.find?_cons_of_pos
    simp [same_key, pfil_head_fresh]
  · intro reg h hu hreg
    have ha : reg.any (same_key h.ph_type h.ph_val) = true :=
      (any_same_key_iff _ _ reg).mpr hreg
    refine ⟨(0, registry_unlink h.ph_type h.ph_val reg), ?_, rfl, ?_⟩
    · unfold pfil_head_unregister
      rw [if_pos ha]
    · unfold pfil_head_get
      apply List.find?_eq_none.mpr
      intro x hx hp
      simp only [same_key, Bool.and_eq_true, decide_eq_true_eq] at hp
      exact registry_unlink_no_key h.ph_type h.ph_val reg hu x hx hp

/-- Instance of C18: with the two demo heads registered, the lookup of the key of
the first finds it, and after unregistering it the lookup returns `none`. -/
theorem C18_head_get_witness :
    (pfil_head_get (pfil_head_register [demo_head1] demo_head0).2 2 1).1
      = some (pfil_head_fresh demo_head0) ∧
    (∃ r, pfil_head_unregister [pfil_head_fresh demo_head0, demo_head1] demo_head0 = some r ∧
      r.1 = 0 ∧ (pfil_head_get r.2 2 1).1 = none) ∧
    (pfil_head_get [demo_head1] 2 1).1 = none := by
  have h1 := C18_head_get.2.1 [demo_head1] demo_head0 rfl
  have h2 := C18_head_get.2.2 [pfil_head_fresh demo_head0, demo_head1] demo_head0
    (by simp [registry_unique, pfil_head_fresh, demo_head0, demo_head1])
    ⟨pfil_head_fresh demo_head0, List.mem_cons_self _ _, rfl, rfl⟩
  have h3 := (C18_head_get.1 [demo_head1] 2 1).2.2 (by simp [demo_head1])
  exact ⟨h1, h2, h3⟩

/-! ## The hook count along administrative calls -/

theorem pfil_list_add_length (list : pfil_list_t) (pfh1 : packet_filter_hook) (flags order : Nat)
    (hnew : list.any (same_ident pfh1.pfil_func pfh1.pfil_arg) = false) :
    (pfil_list_add list pfh1 flags order).2.length = list.length + 1 := by
  obtain ⟨_, pre, post, e1, e2, _, _⟩ := pfil_list_add_shape list pfh1 flags order hnew
  rw [e2, e1]
  simp
  omega

theorem pfil_list_remove_length (list : pfil_list_t) (func arg : Nat) :
    ((pfil_list_remove list func arg).1 = 0 ∧
      (pfil_list_remove list func arg).2.length + 1 = list.length) ∨
    ((pfil_list_remove list func arg).1 ≠ 0 ∧ (pfil_list_remove list func arg).2 = list) := by
  by_cases h : ∃ pfh ∈ list, pfh.pfil_func = func ∧ pfh.pfil_arg = arg
  · obtain ⟨pre, x, post, e1, e2, e3⟩ := split_first_ident list func arg h
    left
    rw [e1, pfil_list_remove_first pre x post func arg e2 e3]
    simp
    omega
  · right
    rw [pfil_list_remove_absent list func arg (fun e he hp => h ⟨e, he, hp⟩)]
    exact ⟨show ENOENT ≠ 0 by decide, rfl⟩

/-- A `pfil_add_hook_order` that does not return 0 leaves the head as it was, except
on the rollback path of a combined add (input side inserted, output side
refused), where the lists are as before and the count is one higher. -/
theorem add_order_fail_head (func arg : Nat) (name : String) (fl order : Nat) (ph : pfil_head)
    (env : pfil_env) (h0 : (pfil_add_hook_order func arg name fl order ph env).1 ≠ 0) :
    (pfil_add_hook_order func arg name fl order ph env).2 = ph ∨
    (fl &&& PFIL_IN ≠ 0 ∧ fl &&& PFIL_OUT ≠ 0 ∧
      (pfil_add_hook_order func arg name fl order ph env).1 = EEXIST ∧
      (pfil_add_hook_order func arg name fl order ph env).2 =
        ⟨ph.ph_type, ph.ph_val, ph.ph_nhooks + 1, ph.ph_in, ph.ph_out⟩) := by
  revert h0
  unfold pfil_add_hook_order
  by_cases hm1 : fl &&& PFIL_IN ≠ 0 ∧ fl &&& PFIL_WAITOK = 0 ∧ env.nowait1 = false
  · simp [hm1]
  · by_cases hm2 : fl &&& PFIL_OUT ≠ 0 ∧ fl &&& PFIL_WAITOK = 0 ∧ env.nowait2 = false
    · simp [hm1, hm2]
    · by_cases hin : fl &&& PFIL_IN ≠ 0
      · have hm4 : ¬ (fl &&& PFIL_WAITOK = 0 ∧ env.nowait1 = false) := fun h => hm1 ⟨hin, h⟩
        cases hdi : ph.ph_in.any (same_ident func arg) with
        | true =>
          have r1 := pfil_list_add_dup ph.ph_in
            ⟨func, arg, to_int32 env.random1, order % 256, name⟩
            (flags_clear fl PFIL_OUT) (order % 256) hdi
          simp [hin, hm4, hm2, r1, EEXIST]
        | false =>
          have r1 := (pfil_list_add_shape ph.ph_in
            ⟨func, arg, to_int32 env.random1, order % 256, name⟩
            (flags_clear fl PFIL_OUT) (order % 256) hdi).1
          have r3 : pfil_list_remove (pfil_list_add ph.ph_in
              ⟨func, arg, to_int32 env.random1, order % 256, name⟩
              (flags_clear fl PFIL_OUT) (order % 256)).2 func arg = (0, ph.ph_in) :=
            pfil_list_remove_add ph.ph_in
              ⟨func, arg, to_int32 env.random1, order % 256, name⟩ _ _ hdi
          by_cases hout : fl &&& PFIL_OUT ≠ 0
          · have hm3 : ¬ (fl &&& PFIL_WAITOK = 0 ∧ env.nowait2 = false) :=
              fun h => hm2 ⟨hout, h⟩
            cases hdo : ph.ph_out.any (same_ident func arg) with
            | true =>
              have r2 := pfil_list_add_dup ph.ph_out
                ⟨func, arg, to_int32 env.random2, order % 256, name⟩
                (flags_clear fl PFIL_IN) (order % 256) hdo
              intro _
              right
              simp [hin, hout, hm3, hm4, r1, r2, r3, EEXIST]
            | false =>
              have r2 := (pfil_list_add_shape ph.ph_out
                ⟨func, arg, to_int32 env.random2, order % 256, name⟩
                (flags_clear fl PFIL_IN) (order % 256) hdo).1
              simp [hin, hout, hm3, hm4, r1, r2]
          · simp [hin, hout, hm4, r1]
      · by_cases hout : fl &&& PFIL_OUT ≠ 0
        · have hm3 : ¬ (fl &&& PFIL_WAITOK = 0 ∧ env.nowait2 = false) :=
            fun h => hm2 ⟨hout, h⟩
          cases hdo : ph.ph_out.any (same_ident func arg) with
          | true =>
            have r2 := pfil_list_add_dup ph.ph_out
              ⟨func, arg, to_int32 env.random2, order % 256, name⟩
              (flags_clear fl PFIL_IN) (order % 256) hdo
            simp [hin, hout, hm3, r2, EEXIST]
          | false =>
            have r2 := (pfil_list_add_shape ph.ph_out
              ⟨func, arg, to_int32 env.random2, order % 256, name⟩
              (flags_clear fl PFIL_IN) (order % 256) hdo).1
            simp [hin, hout, hm3, r2]
        · simp [hin, hout]

/-- The count stays equal to the number of hooks across `pfil_add_hook_order` on
every path but the rollback of a combined add, which leaves it one too high. -/
theorem add_order_nhooks (func arg : Nat) (name : String) (fl order : Nat) (ph : pfil_head)
    (env : pfil_env) (hinv : nhooks_ok ph) :
    nhooks_ok (pfil_add_hook_order func arg name fl order ph env).2 ∨
    (fl &&& PFIL_IN ≠ 0 ∧ fl &&& PFIL_OUT ≠ 0 ∧
      (pfil_add_hook_order func arg name fl order ph env).1 = EEXIST ∧
      (pfil_add_hook_order func arg name fl order ph env).2.ph_nhooks =
        ((pfil_add_hook_order func arg name fl order ph env).2.ph_in.length : Int) +
        ((pfil_add_hook_order func arg name fl order ph env).2.ph_out.length : Int) + 1) := by
  unfold nhooks_ok at hinv ⊢
  by_cases h0 : (pfil_add_hook_order func arg name fl order ph env).1 = 0
  · left
    rw [add_order_ok_head func arg name fl order ph env h0]
    by_cases hin : fl &&& PFIL_IN ≠ 0
    · have l1 := pfil_list_add_length ph.ph_in ⟨func, arg, to_int32 env.random1, order % 256, name⟩
        (flags_clear fl PFIL_OUT) (order % 256)
        (add_order_in_ok func arg name fl order ph env h0 hin).1
      by_cases hout : fl &&& PFIL_OUT ≠ 0
      · have l2 := pfil_list_add_length ph.ph_out
          ⟨func, arg, to_int32 env.random2, order % 256, name⟩
          (flags_clear fl PFIL_IN) (order % 256)
          (add_order_out_ok func arg name fl order ph env h0 hout).1
        simp only [hin, hout, not_false_eq_true, if_true, ne_eq, l1, l2]
        push_cast
        omega
      · simp only [hin, hout, not_false_eq_true, if_true, if_false, ne_eq, l1]
        push_cast
        omega
    · by_cases hout : fl &&& PFIL_OUT ≠ 0
      · have l2 := pfil_list_add_length ph.ph_out
          ⟨func, arg, to_int32 env.random2, order % 256, name⟩
          (flags_clear fl PFIL_IN) (order % 256)
          (add_order_out_ok func arg name fl order ph env h0 hout).1
        simp only [hin, hout, not_false_eq_true, if_true, if_false, ne_eq, l2]
        push_cast
        omega
      · simp only [hin, hout, if_false, ne_eq]
        omega
  · rcases add_order_fail_head func arg name fl order ph env h0 with e | ⟨hin, hout, e1, e2⟩
    · left
      rw [e]
      exact hinv
    · right
      refine ⟨hin, hout, e1, ?_⟩
      rw [e2]
      simp only
      omega

/-- The count stays equal to the number of hooks across `pfil_remove_hook`,
whatever it returns. -/
theorem remove_hook_nhooks (func arg fl : Nat) (ph : pfil_head) (hinv : nhooks_ok ph) :
    nhooks_ok (pfil_remove_hook func arg fl ph).2 := by
  unfold nhooks_ok at hinv ⊢
  unfold pfil_remove_hook
  by_cases hin : fl &&& PFIL_IN ≠ 0
  · rcases pfil_list_remove_length ph.ph_in func arg with ⟨r1, l1⟩ | ⟨r1, l1⟩
    · by_cases hout : fl &&& PFIL_OUT ≠ 0
      · rcases pfil_list_remove_length ph.ph_out func arg with ⟨r2, l2⟩ | ⟨r2, l2⟩
        · simp only [hin, hout, r1, r2, not_false_eq_true, if_true, ne_eq, and_self]
          omega
        · simp only [hin, hout, r1, r2, not_false_eq_true, if_true, if_false, ne_eq, and_self]
          omega
      · simp only [hin, hout, r1, not_false_eq_true, if_true, if_false, ne_eq, and_self,
          and_false, and_true]
        omega
    · simp only [hin, r1, not_false_eq_true, if_true, if_false, ne_eq, and_false, false_and]
      exact hinv
  · by_cases hout : fl &&& PFIL_OUT ≠ 0
    · rcases pfil_list_remove_length ph.ph_out func arg with ⟨r2, l2⟩ | ⟨r2, l2⟩
      · simp only [hin, hout, r2, not_false_eq_true, if_true, if_false, ne_eq, and_self,
          false_and, true_and]
        omega
      · simp only [hin, hout, r2, not_false_eq_true, if_true, if_false, ne_eq, and_self,
          false_and, true_and]
        exact hinv
    · simp only [hin, hout, if_false, ne_eq, false_and, and_false, and_self]
      exact hinv

end Pfil
